import Mathlib

/-
Verification of the FeatBench `docker_agent` evaluation harness.

Python strings are modelled as lists of characters (`Str`); Python
functions from the source tree are transcribed into computable Lean
definitions of the same name.  File-system and container side effects are
modelled as explicit traces or abstracted as function parameters.
-/

set_option maxRecDepth 10000

abbrev Str := List Char

/-- Characters removed by Python `str.strip()` (ASCII whitespace). -/
def isPySpace (c : Char) : Bool :=
  c == ' ' || c == '\t' || c == '\n' || c == '\r' || c == '\x0b' || c == '\x0c'

/-- Python `str.lstrip()`. -/
def lstrip (s : Str) : Str := s.dropWhile isPySpace

/-- Python `str.rstrip()`. -/
def rstrip (s : Str) : Str := (s.reverse.dropWhile isPySpace).reverse

/-- Python `str.strip()`. -/
def pyStrip (s : Str) : Str := rstrip (lstrip s)

/-- Fuel-driven worker for `splitOnSep` (structural recursion on the fuel so
that the kernel can evaluate it; the wrapper always supplies enough fuel). -/
def splitGo (c : Char) (sep : Str) : Nat → Str → List Str
  | _, [] => [[]]
  | 0, s => [s]
  | fuel + 1, a :: rest =>
    if (c :: sep).isPrefixOf (a :: rest) then
      [] :: splitGo c sep fuel (rest.drop sep.length)
    else
      match splitGo c sep fuel rest with
      | [] => [[a]]
      | r :: rs => (a :: r) :: rs

/-- Python `s.split(sep)` for the non-empty separator `c :: sep`, which is
also the semantics of `re.split` on a literal pattern: split at each
leftmost non-overlapping occurrence of the separator. -/
def splitOnSep (c : Char) (sep : Str) (s : Str) : List Str :=
  splitGo c sep s.length s

/-- Python `s.split(sep)` (non-empty `sep`; Python raises on an empty
separator, a case no call site exercises). -/
def pySplit (sep : Str) (s : Str) : List Str :=
  match sep with
  | [] => [s]
  | c :: cs => splitOnSep c cs s

/-- Python substring containment `sub in s`. -/
def containsStr (sub : Str) : Str → Bool
  | [] => sub.isEmpty
  | a :: rest => sub.isPrefixOf (a :: rest) || containsStr sub rest

/-- Suffix of `s` starting at the first occurrence of `sub`
(Python `s[s.find(sub):]` when `find` succeeds, `none` when it returns -1). -/
def dropToSub (sub : Str) : Str → Option Str
  | [] => if sub.isEmpty then some [] else none
  | a :: rest =>
    if sub.isPrefixOf (a :: rest) then some (a :: rest) else dropToSub sub rest

/-- Split at the first occurrence of `sub` (Python `s.split(sub, 1)` when it
occurs): returns the part before and the part after the separator. -/
def splitFirstAt (sub : Str) : Str → Option (Str × Str)
  | [] => none
  | a :: rest =>
    if sub.isPrefixOf (a :: rest) then some ([], (a :: rest).drop sub.length)
    else (splitFirstAt sub rest).map (fun p => (a :: p.1, p.2))

/-- Python truthiness-based `a or b` for an optional string (`None` and the
empty string both fall through to `b`). -/
def pyOrStr (a : Option Str) (b : Str) : Str :=
  match a with
  | some s => if s.isEmpty then b else s
  | none => b

/- ### Patch engine: `docker_agent/parsing/patch_analyzer.py` -/

namespace PatchAnalyzer

/-- The `PatchInfo` dataclass. -/
structure PatchInfo where
  filename : Str
  status : Str
  patch_content : Str
  is_test_file : Bool := false
  old_filename : Option Str := none
deriving DecidableEq

/-- `PatchAnalyzer.is_test_file`: the lower-cased filename is matched with
`re.search` against five regex patterns.  The transcription is exact for
newline-free inputs (every filename handled by the analyzer originates from
a single header line, hence contains no newline): a pattern with a leading
`.*` reduces to a suffix test, and `test.*\.py$` holds iff the name ends in
`.py` and `test` occurs entirely before that suffix. -/
def is_test_file (filename : Str) : Bool :=
  let s := filename.map Char.toLower
  let endsPy := ".py".data.isSuffixOf s
  let body := s.take (s.length - 3)
  (endsPy && containsStr "test".data body) ||
  "test.py".data.isSuffixOf s ||
  "_test.py".data.isSuffixOf s ||
  (endsPy && (containsStr "/test/".data body || containsStr "/tests/".data body)) ||
  (endsPy && containsStr "/testing/".data body)

/-- Scan of the lazy/greedy groups in
`re.match(r'diff --git a/(.*?) b/(.*)', git_line)` after the literal
prefix: the lazy first group stops at the first occurrence of `" b/"`
(`.` does not cross a newline, so the scan aborts at `'\n'`); the greedy
second group extends to the next newline or the end. -/
def gitABScan : Str → Option (Str × Str)
  | [] => none
  | a :: rest =>
    if " b/".data.isPrefixOf (a :: rest) then
      some ([], ((a :: rest).drop 3).takeWhile (fun c => c != '\n'))
    else if a == '\n' then none
    else (gitABScan rest).map (fun p => (a :: p.1, p.2))

/-- `re.match(r'diff --git a/(.*?) b/(.*)', git_line)`. -/
def matchGitAB (line : Str) : Option (Str × Str) :=
  if "diff --git a/".data.isPrefixOf line then gitABScan (line.drop 13)
  else none

/-- The marker loop of `PatchAnalyzer._extract_file_info` over
`all_lines[:10]`: the first line starting with `new file mode`,
`deleted file mode` or `rename from` decides the status (with `break`). -/
def statusScan (old_file : Str) : List Str → Str × Option Str
  | [] => ("modified".data, none)
  | l :: ls =>
    if "new file mode".data.isPrefixOf l then ("added".data, none)
    else if "deleted file mode".data.isPrefixOf l then ("removed".data, none)
    else if "rename from".data.isPrefixOf l then ("renamed".data, some old_file)
    else statusScan old_file ls

/-- `PatchAnalyzer._extract_file_info`. -/
def extract_file_info (git_line : Str) (all_lines : List Str) :
    Option Str × Str × Option Str :=
  match matchGitAB git_line with
  | none => (none, "unknown".data, none)
  | some (old_file, new_file) =>
    let p := statusScan old_file (all_lines.take 10)
    let filename := if p.1 = "removed".data then old_file else new_file
    (some filename, p.1, p.2)

/-- The hunk-collection loop of `PatchAnalyzer._parse_single_file_diff`
(the Boolean argument is the `in_hunk` flag). -/
def collectPatchLines : List Str → Bool → List Str
  | [], _ => []
  | l :: ls, in_hunk =>
    if "@@".data.isPrefixOf l then l :: collectPatchLines ls true
    else if in_hunk &&
        (l.head?.any (fun c => c == '+' || c == '-' || c == ' ') || l.isEmpty) then
      l :: collectPatchLines ls in_hunk
    else if "\\".data.isPrefixOf l then l :: collectPatchLines ls in_hunk
    else collectPatchLines ls in_hunk

/-- `PatchAnalyzer._parse_single_file_diff`.  The Python guard
`if not filename` drops both `None` and the empty string. -/
def parse_single_file_diff (diff_content : Str) : Option PatchInfo :=
  match (pyStrip diff_content).splitOn '\n' with
  | [] => none
  | git_line :: rest =>
    match extract_file_info git_line (git_line :: rest) with
    | (none, _, _) => none
    | (some filename, status, old_filename) =>
      if filename.isEmpty then none
      else
        let patch_lines := collectPatchLines (git_line :: rest) false
        some { filename := filename, status := status,
               patch_content := ['\n'].intercalate patch_lines,
               is_test_file := is_test_file filename,
               old_filename := old_filename }

/-- `PatchAnalyzer.parse_unified_diff`: split on `\ndiff --git`, restore the
prefix on every block after the first, skip blank blocks, parse each block
and drop the ones the single-file parser rejects. -/
def parse_unified_diff (diff_content : Str) : List PatchInfo :=
  let file_diffs := pySplit "\ndiff --git".data diff_content
  let blocks :=
    match file_diffs with
    | [] => []
    | b :: bs => b :: bs.map (fun fd => "diff --git".data ++ fd)
  blocks.filterMap (fun fd =>
    if (pyStrip fd).isEmpty then none else parse_single_file_diff fd)

/-- `PatchAnalyzer._build_complete_diff` (every `\n` of the f-strings is
written as an explicit `['\n']` append). -/
def build_complete_diff (patch : PatchInfo) : Str :=
  let header := "diff --git a/".data ++ patch.filename ++ " b/".data ++
    patch.filename ++ ['\n']
  if patch.status = "added".data then
    header ++ "new file mode 100644".data ++ ['\n'] ++
      "index 0000000..1111111".data ++ ['\n'] ++
      "--- /dev/null".data ++ ['\n'] ++
      "+++ b/".data ++ patch.filename ++ ['\n'] ++
      patch.patch_content ++ ['\n']
  else if patch.status = "removed".data then
    header ++ "deleted file mode 100644".data ++ ['\n'] ++
      "index 1111111..0000000".data ++ ['\n'] ++
      "--- a/".data ++ patch.filename ++ ['\n'] ++
      "+++ /dev/null".data ++ ['\n'] ++
      patch.patch_content ++ ['\n']
  else if patch.status = "renamed".data then
    let old_name := pyOrStr patch.old_filename patch.filename
    "diff --git a/".data ++ old_name ++ " b/".data ++ patch.filename ++ ['\n'] ++
      "similarity index 100%".data ++ ['\n'] ++
      "rename from ".data ++ old_name ++ ['\n'] ++
      "rename to ".data ++ patch.filename ++ ['\n'] ++
      patch.patch_content ++ ['\n']
  else
    header ++ "index 1111111..2222222 100644".data ++ ['\n'] ++
      "--- a/".data ++ patch.filename ++ ['\n'] ++
      "+++ b/".data ++ patch.filename ++ ['\n'] ++
      patch.patch_content ++ ['\n']

end PatchAnalyzer

/- ### Test-result parsing: `docker_agent/parsing/pytest_parser.py` -/

namespace PytestResultParser

/-- The `TestStatus` enumeration. -/
inductive TestStatus
  | PASSED
  | FAILED
  | SKIPPED
  | ERROR
  | UNKNOWN
deriving DecidableEq

/-- The `.value` strings of the enumeration, in declaration order. -/
def statusValues : List Str :=
  ["PASSED".data, "FAILED".data, "SKIPPED".data, "ERROR".data, "UNKNOWN".data]

/-- Body of an ANSI escape after `"\x1b["`: zero or more digits or
semicolons followed by `'m'`; returns the remainder past the `'m'`. -/
def skipAnsiBody : Str → Option Str
  | [] => none
  | c :: rest =>
    if c == 'm' then some rest
    else if c.isDigit || c == ';' then skipAnsiBody rest
    else none

/-- Fuel-driven worker for `_clean_ansi_codes`
(`re.sub(r'\x1b\[[0-9;]*m', '', text)`): leftmost non-overlapping matches
are removed, everything else is kept. -/
def cleanAnsiGo : Nat → Str → Str
  | _, [] => []
  | 0, s => s
  | fuel + 1, c :: rest =>
    if c == '\x1b' then
      match rest with
      | '[' :: r2 =>
        match skipAnsiBody r2 with
        | some r3 => cleanAnsiGo fuel r3
        | none => c :: cleanAnsiGo fuel rest
      | _ => c :: cleanAnsiGo fuel rest
    else c :: cleanAnsiGo fuel rest

/-- `PytestResultParser._clean_ansi_codes`. -/
def clean_ansi_codes (s : Str) : Str := cleanAnsiGo s.length s

/-- The ordered alternation `(PASSED|FAILED|SKIPPED|ERROR)` anchored at the
start of the line: the matched status text and the remainder. -/
def statusAlternation (line : Str) : Option (Str × Str) :=
  if "PASSED".data.isPrefixOf line then some ("PASSED".data, line.drop 6)
  else if "FAILED".data.isPrefixOf line then some ("FAILED".data, line.drop 6)
  else if "SKIPPED".data.isPrefixOf line then some ("SKIPPED".data, line.drop 7)
  else if "ERROR".data.isPrefixOf line then some ("ERROR".data, line.drop 5)
  else none

/-- Whether the optional separator `\s-\s` of the test-line regex matches at
this position. -/
def sepStartsHere (s : Str) : Bool :=
  match s with
  | a :: b :: c :: _ => isPySpace a && b == '-' && isPySpace c
  | _ => false

/-- The lazy group `(.+?)` of the test-line regex after its first character:
consume until the optional `\s-\s` separator or the end of the line. -/
def pathTake : Str → Str
  | [] => []
  | a :: rest => if sepStartsHere (a :: rest) then [] else a :: pathTake rest

/-- `TestStatus(status_str)` with the `except ValueError` fallback. -/
def statusOfString (s : Str) : TestStatus :=
  if s = "PASSED".data then .PASSED
  else if s = "FAILED".data then .FAILED
  else if s = "SKIPPED".data then .SKIPPED
  else if s = "ERROR".data then .ERROR
  else .UNKNOWN

/-- Python-dict assignment on an insertion-ordered association list:
overwriting keeps the original position. -/
def dictInsert (m : List (Str × TestStatus)) (k : Str) (v : TestStatus) :
    List (Str × TestStatus) :=
  match m with
  | [] => [(k, v)]
  | (k0, v0) :: rest =>
    if k0 = k then (k0, v) :: rest else (k0, v0) :: dictInsert rest k v

/-- Python-dict lookup. -/
def dictLookup (m : List (Str × TestStatus)) (k : Str) : Option TestStatus :=
  (m.find? (fun p => p.1 = k)).map (fun p => p.2)

/-- `PytestResultParser._parse_test_line`: match
`^(PASSED|FAILED|SKIPPED|ERROR)\s+(.+?)(?:\s-\s.*)?$` and record
`group(2).strip()`.  The greedy `\s+` backtracks one character when nothing
is left for the lazy group, which makes a status followed only by
whitespace record the empty path. -/
def parse_test_line (m : List (Str × TestStatus)) (line : Str) :
    List (Str × TestStatus) :=
  match statusAlternation line with
  | none => m
  | some (status_str, rest) =>
    let ws := rest.takeWhile isPySpace
    let r := rest.dropWhile isPySpace
    if ws.isEmpty then m
    else
      match r with
      | [] =>
        if ws.length ≥ 2 then dictInsert m [] (statusOfString status_str) else m
      | c :: cs =>
        let test_path := pyStrip (c :: pathTake cs)
        dictInsert m test_path (statusOfString status_str)

/-- `PytestResultParser._parse_from_full_output`. -/
def parse_from_full_output (clean : Str) : List (Str × TestStatus) :=
  (clean.splitOn '\n').foldl (fun m line =>
    let l := pyStrip line
    if statusValues.any (fun v => containsStr v l) then parse_test_line m l
    else m) []

/-- `PytestResultParser._parse_output` (the constructor's parsing pass):
strip ANSI, look for the `short test summary info` marker, parse from there
when present and from the whole output otherwise. -/
def parse_output (output : Str) : List (Str × TestStatus) :=
  let clean := clean_ansi_codes output
  match dropToSub "short test summary info".data clean with
  | none => parse_from_full_output clean
  | some sec =>
    (sec.splitOn '\n').foldl (fun m line =>
      let l := pyStrip line
      if l.isEmpty then m else parse_test_line m l) []

/-- `PytestResultParser._get_base_test_name`: the part before the first
`'['`. -/
def get_base_test_name (test_path : Str) : Str :=
  if containsStr "[".data test_path then (test_path.splitOn '[').headD test_path
  else test_path

/-- `PytestResultParser._aggregate_parametrized_results`. -/
def aggregate_parametrized_results (test_results : List (Str × TestStatus)) :
    TestStatus :=
  if test_results.isEmpty then .UNKNOWN
  else
    let statuses := test_results.map (fun p => p.2)
    if statuses.any (fun s => s == .FAILED || s == .ERROR || s == .UNKNOWN) then
      .FAILED
    else if statuses.all (fun s => s == .PASSED || s == .SKIPPED) then
      if statuses.any (fun s => s == .PASSED) then .PASSED else .SKIPPED
    else .UNKNOWN

/-- `PytestResultParser.get_test_status`. -/
def get_test_status (m : List (Str × TestStatus)) (test_pattern : Str) :
    Option TestStatus :=
  match dictLookup m test_pattern with
  | some st => some st
  | none =>
    let base := get_base_test_name test_pattern
    let group := m.filter (fun p => get_base_test_name p.1 = base)
    if group.isEmpty then none else some (aggregate_parametrized_results group)

/-- `PytestResultParser.query_tests`. -/
def query_tests (m : List (Str × TestStatus)) (test_patterns : List Str) :
    List (Str × TestStatus) :=
  test_patterns.foldl (fun acc p =>
    dictInsert acc p ((get_test_status m p).getD .UNKNOWN)) []

/-- `PytestResultParser.filter_tests_by_status`: group entries by base test
name, aggregate every group, keep the base names whose aggregate is in
`expected_statuses` (defaulting to `[PASSED]`). -/
def filter_tests_by_status (m : List (Str × TestStatus))
    (expected_statuses : List TestStatus) : List Str :=
  let expected := if expected_statuses.isEmpty then [TestStatus.PASSED]
    else expected_statuses
  let bases := (m.map (fun p => get_base_test_name p.1)).dedup
  bases.filter (fun b =>
    expected.contains (aggregate_parametrized_results
      (m.filter (fun p => get_base_test_name p.1 = b))))

end PytestResultParser

/- ### Command execution: `docker_agent/utils/command_executor.py` -/

namespace DockerCommandExecutor

/-- The message of the `TestExecutionError` raised by `_exec` on an
in-container timeout. -/
def timeoutMessage (t : Nat) : Str :=
  "Container command execution timeout after ".data ++ (toString t).data ++ "s".data

/-- The `timeout -s TERM -k 10s <N>s` wrapper prepended by `_exec` when a
timeout is given. -/
def timeoutCommand (timeout : Option Nat) (command : Str) : Str :=
  match timeout with
  | some t => "timeout -s TERM -k 10s ".data ++ (toString t).data ++ "s ".data ++ command
  | none => command

/-- `DockerCommandExecutor._exec`, with the container runtime abstracted:
`rawExit`/`rawOutput` stand for the exit code and combined output the exec
API reports for the (wrapped) command.  `Except.error` models the raised
`TestExecutionError`. -/
def execInner (timeout : Option Nat) (rawExit : Int) (rawOutput : Str) :
    Except Str (Int × Str) :=
  match timeout with
  | some t =>
    if rawExit == 124 || rawExit == 137 then Except.error (timeoutMessage t)
    else Except.ok (rawExit, rawOutput)
  | none => Except.ok (rawExit, rawOutput)

/-- `DockerCommandExecutor.execute`: the public entry point wraps `_exec` in
`try/except Exception` and turns any raised error `e` into the ordinary
return value `(1, str(e))`. -/
def execute (timeout : Option Nat) (rawExit : Int) (rawOutput : Str) : Int × Str :=
  match execInner timeout rawExit rawOutput with
  | Except.ok r => r
  | Except.error e => (1, e)

end DockerCommandExecutor

/- ### Result persistence: `docker_agent/evaluation/results.py` -/

namespace EvaluationResultManager

/-- File-system effects performed by the result manager. -/
inductive FsOp
  | mkdirParents (path : Str)
  | writeFile (path : Str) (content : Str)
  | rename (src : Str) (dst : Str)
deriving DecidableEq

/-- Whether an effect is a rename (the primitive an atomic
write-temp-then-rename save would need). -/
def FsOp.isRename : FsOp → Bool
  | .rename _ _ => true
  | _ => false

/-- `pathlib.PurePath` stem/suffix split of a file name: the suffix starts
at the last dot, provided that dot is neither the first nor the last
character. -/
def pathSplitExt (name : Str) : Str × Str :=
  match name.reverse.findIdx? (fun x => x == '.') with
  | none => (name, [])
  | some j =>
    let i := name.length - 1 - j
    if 0 < i ∧ i < name.length - 1 then (name.take i, name.drop i) else (name, [])

/-- `EvaluationResultManager.save_evaluation_results` as the trace of
file-system operations it performs; the `json.dump` serialization of the
result list is abstracted as the `content` string.  The source opens the
final results path directly for writing (after `mkdir -p` on its parent). -/
def save_evaluation_results (base_path exp_suffix content filename : Str) :
    List FsOp :=
  let se := pathSplitExt filename
  let new_filename := se.1 ++ "_".data ++ exp_suffix ++ se.2
  let dir := base_path ++ "/results".data
  [FsOp.mkdirParents dir, FsOp.writeFile (dir ++ "/".data ++ new_filename) content]

end EvaluationResultManager

/- ### Evaluation scheduling: `docker_agent/evaluation/evaluator.py` -/

namespace AgentEvaluator

/-- The work-list construction of `AgentEvaluator.evaluate`: for every repo
group, take at most `max_specs_per_repo` specs; for each spec keep the
agents whose `(agent, instance_id)` key is not cached; a spec with no
remaining agents is skipped entirely.  (The subsequent `random.shuffle`
permutes this list without changing its length or membership; `_eval_spec`
then calls `create_container` exactly once per entry.) -/
def buildWorkList (agents : List Str) (specs_by_repo : List (List Str))
    (evaluated_keys : List (Str × Str)) (max_specs_per_repo : Nat) :
    List (List Str × Str) :=
  (specs_by_repo.map (fun repo_specs =>
    (repo_specs.take max_specs_per_repo).filterMap (fun instance_id =>
      let remaining := agents.filter
        (fun a => decide ((a, instance_id) ∉ evaluated_keys))
      if remaining.isEmpty then none else some (remaining, instance_id)))).flatten

/-- One container is created per work-list entry. -/
def containerCreations (agents : List Str) (specs_by_repo : List (List Str))
    (evaluated_keys : List (Str × Str)) (max_specs_per_repo : Nat) : Nat :=
  (buildWorkList agents specs_by_repo evaluated_keys max_specs_per_repo).length

end AgentEvaluator

/- ### Test invocation: `docker_agent/container/container_operator.py` -/

namespace ContainerOperator

open PytestResultParser

/-- The `CodeChange` records consumed by the dict-shaped `test_files`
argument of `run_tests_in_container`. -/
structure CodeChange where
  name : Str
  change_type : Str
  code_type : Str
deriving DecidableEq

/-- The three runtime shapes of the `test_files` argument
(`None`, a list of `{file -> [CodeChange]}` dicts, or a list of selector
strings; the Python code discriminates on `isinstance(test_files[0], Dict)`). -/
inductive TestFiles
  | noTests
  | dicts (l : List (List (Str × List CodeChange)))
  | strs (l : List Str)

/-- Selector(s) contributed by one `CodeChange` (`deleted` entries are
skipped; a `method` name without a dot makes the Python tuple unpacking
raise, modelled as `none`). -/
def selectorOfChange (file_name : Str) (change : CodeChange) :
    Option (List Str) :=
  if change.change_type = "deleted".data then some []
  else if change.code_type = "function".data then
    some [file_name ++ "::".data ++ change.name]
  else if change.code_type = "method".data then
    match splitFirstAt ".".data change.name with
    | some p => some [file_name ++ "::".data ++ p.1 ++ "::".data ++ p.2]
    | none => none
  else some []

/-- Selector expansion for the dict-shaped `test_files`. -/
def pytestArgsOfDicts (l : List (List (Str × List CodeChange))) :
    Option (List Str) :=
  l.foldlM (fun acc d =>
    d.foldlM (fun acc2 fc =>
      fc.2.foldlM (fun acc3 ch =>
        (selectorOfChange fc.1 ch).map (fun sel => acc3 ++ sel)) acc2) acc) []

/-- The pytest base command of `run_tests_in_container`. -/
def base_cmd (use_xdist : Bool) : Str :=
  let b := ("python3 -m pytest -q -rA --tb=no -p no:pretty --timeout=5" ++
    " --continue-on-collection-errors").data
  if use_xdist then b ++ " --timeout-method=thread -n auto".data
  else b ++ " --timeout-method=signal".data

/-- `f"{base_cmd_template} {' '.join(pytest_args)}"`. -/
def testCmd (base : Str) (args : List Str) : Str :=
  base ++ [' '] ++ List.intercalate [' '] args

/-- The conservative command-length estimate
`len(base) + sum(len(arg) + 1 for arg in pytest_args)`. -/
def estimated_length (base : Str) (args : List Str) : Nat :=
  base.length + (args.map (fun a => a.length + 1)).sum

/-- The batches produced by `range(0, len(pytest_args), 250)` slicing:
successive chunks of at most 250 selectors, in order. -/
def chunks250 : List Str → List (List Str)
  | [] => []
  | a :: rest =>
    (a :: rest).take 250 :: chunks250 ((a :: rest).drop 250)
termination_by args => args.length
decreasing_by
  simp only [List.length_drop, List.length_cons]
  omega

/-- `ContainerOperator.parse_pytest_output`.  Python sets are modelled as
lists up to membership (`set(...)` becomes `dedup`). -/
def parse_pytest_output (logs : Str) (test_cases : List Str)
    (expected : List TestStatus) : List Str :=
  let m := parse_output logs
  let is_directory_test := test_cases.any (fun a => "/".data.isSuffixOf a)
  if is_directory_test then filter_tests_by_status m expected
  else
    (((query_tests m test_cases).filter
      (fun p => expected.contains p.2)).map (fun p => p.1)).dedup

/-- `ContainerOperator._run_tests_in_batches`, with the in-container
execution abstracted as `execute : command -> combined output` (the exit
code the executor also returns is unused by the source).  Accumulates the
union of the per-batch parsed sets and the list of raw batch outputs. -/
def run_tests_in_batches (execute : Str → Str) (base : Str) (args : List Str)
    (expected : List TestStatus) : List Str × List Str :=
  match args with
  | [] => ([], [])
  | a :: rest =>
    let batch := (a :: rest).take 250
    let output := execute (testCmd base batch)
    let r := run_tests_in_batches execute base ((a :: rest).drop 250) expected
    (parse_pytest_output output batch expected ∪ r.1, output :: r.2)
termination_by args.length
decreasing_by
  simp only [List.length_drop, List.length_cons]
  omega

/-- `ContainerOperator.run_tests_in_container`.  The container interactions
are abstracted: `execute` maps a full command to its combined output, and
`findDirs` is the directory list `_find_test_dirs` would discover for the
`test_files = None` branch.  `none` models a raised exception. -/
def run_tests_in_container (execute : Str → Str) (findDirs : List Str)
    (test_files : TestFiles) (expected : List TestStatus) (use_xdist : Bool) :
    Option (List Str × Str) :=
  let argsOpt :=
    match test_files with
    | TestFiles.noTests => some (findDirs.map (fun d => d ++ "/".data))
    | TestFiles.dicts l => pytestArgsOfDicts l
    | TestFiles.strs l => some l
  match argsOpt with
  | none => none
  | some pytest_args =>
    let base := base_cmd use_xdist
    if estimated_length base pytest_args > 100000 then
      let r := run_tests_in_batches execute base pytest_args expected
      some (r.1, List.intercalate ['\n'] r.2)
    else
      let output := execute (testCmd base pytest_args)
      some (parse_pytest_output output pytest_args expected, output)

end ContainerOperator

/- ### Agent evaluation: `docker_agent/agents/manager.py` -/

namespace AgentManager

open PytestResultParser

/-- A file-change record of a dataset `test_patch` (only its truthiness is
observed by `AgentManager.evaluate`). -/
structure FileChange where
  filename : Str
  patch : Str
  status : Str
deriving DecidableEq

/-- The fields of a task `Spec` that `AgentManager.evaluate` reads. -/
structure SpecInput where
  instance_id : Str
  repo_name : Str
  base_commit : Str
  FAIL_TO_PASS : Str
  PASS_TO_PASS : Str
  test_patch : List FileChange

/-- The token counts produced by `parse_agent_log`. -/
structure Tokens where
  total : Option Nat
  input : Option Nat
  output : Option Nat
deriving DecidableEq

/-- Working-tree phases `AgentManager.evaluate` drives through the
container operator (recorded in execution order). -/
inductive Phase
  | checkout (commit : Str) (exclude_file : List Str)
  | agentRun
  | chownLogs
  | applyPatchFile
  | applyTestPatch
  | runTests (tests : List Str)
deriving DecidableEq

/-- The success-branch result dict of `AgentManager.evaluate`. -/
structure OkRecord where
  agent : Str
  model : Str
  instance_id : Str
  success_f2p : Bool
  success_p2p : Bool
  success : Bool
  passed_f2p_tests : List Str
  passed_p2p_tests : List Str
  expected_f2p_tests : List Str
  expected_p2p_tests : List Str
  total_tokens : Option Nat
  input_tokens : Option Nat
  output_tokens : Option Nat
deriving DecidableEq

/-- The result dict of `AgentManager.evaluate`: the success-branch record or
the failure-branch record `{success: False, error: ...}`. -/
inductive EvalResult
  | ok (r : OkRecord)
  | err (agent : Str) (model : Str) (instance_id : Str) (success : Bool)
      (error : Str)
deriving DecidableEq

/-- The Boolean `success` field of either record shape. -/
def EvalResult.successField : EvalResult → Bool
  | .ok r => r.success
  | .err _ _ _ s _ => s

/-- `AgentManager.evaluate`, with the container abstracted:
`agent_success`/`agent_output` are the pair `self.agent.run(...)` returns,
`run tests use_xdist` is the passed-set/logs pair
`operator.run_tests_in_container(repo, tests, [PASSED], use_xdist)`
returns (its passed set modelled as a list up to membership), and `parse_agent_log` returns `none` when the Python call raises
(the `except` fallback then reports all-`None` token counts).  The returned
list records the working-tree phases in execution order.  (The enclosing
`except Exception` recovery path is unreachable here because the abstracted
collaborators are total.) -/
def evaluate (agent_name model_name : Str) (spec : SpecInput)
    (agent_success : Bool) (agent_output : Str)
    (run : List Str → Bool → List Str × Str)
    (parse_agent_log : Str → Option Tokens) : EvalResult × List Phase :=
  let prePhases := [Phase.checkout spec.base_commit [], Phase.agentRun,
    Phase.chownLogs]
  if agent_success then
    let f2p_tests := if spec.FAIL_TO_PASS.isEmpty then []
      else pySplit ", ".data spec.FAIL_TO_PASS
    let p2p_tests := if spec.PASS_TO_PASS.isEmpty then []
      else pySplit ", ".data spec.PASS_TO_PASS
    let applyPhases := [Phase.checkout spec.base_commit ["patch.diff".data],
      Phase.applyPatchFile] ++
      (if spec.test_patch.isEmpty then [] else [Phase.applyTestPatch])
    let f2p_passed := if f2p_tests.isEmpty then ([] : List Str)
      else (run f2p_tests false).1
    let p2p_passed := if p2p_tests.isEmpty then ([] : List Str)
      else (run p2p_tests true).1
    let f2pPhases := applyPhases ++
      (if f2p_tests.isEmpty then [] else [Phase.runTests f2p_tests])
    let p2pPhases := applyPhases ++
      (if p2p_tests.isEmpty then [] else [Phase.runTests p2p_tests])
    let success_f2p := f2p_tests.all (fun t => decide (t ∈ f2p_passed))
    let success_p2p := p2p_tests.all (fun t => decide (t ∈ p2p_passed))
    let tokens := (parse_agent_log agent_output).getD ⟨none, none, none⟩
    (EvalResult.ok {
        agent := agent_name, model := model_name,
        instance_id := spec.instance_id,
        success_f2p := success_f2p, success_p2p := success_p2p,
        success := success_f2p && success_p2p,
        passed_f2p_tests := f2p_passed,
        passed_p2p_tests := p2p_passed,
        expected_f2p_tests := f2p_tests, expected_p2p_tests := p2p_tests,
        total_tokens := tokens.total, input_tokens := tokens.input,
        output_tokens := tokens.output },
      prePhases ++ f2pPhases ++ p2pPhases)
  else
    (EvalResult.err agent_name model_name spec.instance_id false agent_output,
      prePhases)

/-- The phases recorded after the `agentRun` phase. -/
def phasesAfterAgentRun (ph : List Phase) : List Phase :=
  (ph.dropWhile (fun p => decide (p ≠ Phase.agentRun))).drop 1

/-- Whether a phase touches the working tree for the test stage (checkout,
patch application or a test run). -/
def Phase.isTestStage : Phase → Bool
  | .checkout _ _ => true
  | .applyPatchFile => true
  | .applyTestPatch => true
  | .runTests _ => true
  | _ => false

end AgentManager

/- ### Specification-side definitions used for refinement comparisons -/

namespace PytestResultParser

/-- The aggregation rule exactly as the specification words it: `FAILED` if
any variant is `FAILED`, `ERROR` or `UNKNOWN`; else `PASSED` if all
variants are in `{PASSED, SKIPPED}` and at least one is `PASSED`; else
`SKIPPED` if all variants are `SKIPPED`; otherwise `UNKNOWN`. -/
def aggregateSpecRule (statuses : List TestStatus) : TestStatus :=
  if statuses.any (fun s => s == .FAILED || s == .ERROR || s == .UNKNOWN) then
    .FAILED
  else if statuses.all (fun s => s == .PASSED || s == .SKIPPED) &&
      statuses.any (fun s => s == .PASSED) then
    .PASSED
  else if statuses.all (fun s => s == .SKIPPED) then .SKIPPED
  else .UNKNOWN

end PytestResultParser

namespace PatchAnalyzer

/-- A line the hunk collector always keeps once a hunk is open: an `@@`
header, a `+`/`-`/space body line, an empty line, or a `\`-sentinel. -/
def hunkLineOk (l : Str) : Bool :=
  "@@".data.isPrefixOf l ||
  l.head?.any (fun c => c == '+' || c == '-' || c == ' ') ||
  l.isEmpty ||
  "\\".data.isPrefixOf l

/-- A well-formed hunk body for the rebuild-then-parse round trip: empty,
or newline-separated hunk lines whose first line is an `@@` header, not
ending in a whitespace character (so that the surrounding `strip()` leaves
it intact). -/
def patchContentOk (pc : Str) : Prop :=
  pc = [] ∨
  ("@@".data.isPrefixOf ((pc.splitOn '\n').headD []) ∧
   (∀ l ∈ pc.splitOn '\n', hunkLineOk l = true) ∧
   pc.getLast?.all (fun c => !isPySpace c) = true)

instance (pc : Str) : Decidable (patchContentOk pc) := by
  unfold patchContentOk; infer_instance

end PatchAnalyzer

/-- Join a list of lines with each line terminated by a newline — the
shape of the rebuilt per-file diffs.  Proof infrastructure for the
round-trip analysis. -/
def linesJoin : List Str → Str
  | [] => []
  | l :: ls => l ++ ['\n'] ++ linesJoin ls

/-- The `diff --git` header line of a rebuilt diff (proof infrastructure
for the round-trip analysis). -/
def headerLine (X Y : Str) : Str :=
  "diff --git a/".data ++ (X ++ (" b/".data ++ Y))

/- ### Supporting lemmas -/

theorem containsStr_cons_of (sub a : Str) (c : Char)
    (h : containsStr sub a = true) : containsStr sub (c :: a) = true := by
  unfold containsStr
  simp [h]

theorem containsStr_of_isPrefixOf (sub s : Str)
    (h : sub.isPrefixOf s = true) : containsStr sub s = true := by
  cases s with
  | nil =>
    cases sub with
    | nil => rfl
    | cons c cs => simp [List.isPrefixOf] at h
  | cons a rest =>
    unfold containsStr
    simp [h]

theorem containsStr_tail (sub s : Str) (c : Char)
    (h : containsStr (c :: sub) s = true) : containsStr sub s = true := by
  induction s with
  | nil => simp [containsStr] at h
  | cons a rest ih =>
    unfold containsStr at h
    simp only [Bool.or_eq_true] at h
    rcases h with h | h
    · have h2 : (c == a && sub.isPrefixOf rest) = true := h
      simp only [Bool.and_eq_true, beq_iff_eq] at h2
      exact containsStr_cons_of _ _ _ (containsStr_of_isPrefixOf _ _ h2.2)
    · exact containsStr_cons_of _ _ _ (ih h)

/- ### C1: verdict characterization in `AgentManager.evaluate` -/

/-- C1: for every evaluated task whose agent run succeeds, the recorded
verdict satisfies `success_f2p = true` iff every expected FAIL_TO_PASS
identifier is a member of the passed F2P set, analogously for
PASS_TO_PASS, and `success = success_f2p && success_p2p`. -/
theorem C1_evaluate_verdict (agent_name model_name : Str)
    (spec : AgentManager.SpecInput) (agent_output : Str)
    (run : List Str → Bool → List Str × Str)
    (parse_agent_log : Str → Option AgentManager.Tokens)
    (r : AgentManager.OkRecord)
    (h : (AgentManager.evaluate agent_name model_name spec true agent_output
      run parse_agent_log).1 = AgentManager.EvalResult.ok r) :
    ((r.success_f2p = true) ↔
      ∀ t ∈ r.expected_f2p_tests, t ∈ r.passed_f2p_tests) ∧
    ((r.success_p2p = true) ↔
      ∀ t ∈ r.expected_p2p_tests, t ∈ r.passed_p2p_tests) ∧
    r.success = (r.success_f2p && r.success_p2p) := by
  unfold AgentManager.evaluate at h
  rw [if_pos rfl] at h
  injection h with h
  subst h
  refine ⟨?_, ?_, rfl⟩ <;>
    simp [List.all_eq_true]

/-- Witness for C1 at a concrete task: two expected F2P tests, one passed. -/
theorem C1_evaluate_verdict_witness :
    ((AgentManager.EvalResult.ok
        { agent := "trae-agent".data, model := "m".data,
          instance_id := "demo-1".data,
          success_f2p := ["t1".data, "t2".data].all
            (fun t => decide (t ∈ ["t1".data])),
          success_p2p := true, success := false,
          passed_f2p_tests := ["t1".data], passed_p2p_tests := [],
          expected_f2p_tests := ["t1".data, "t2".data],
          expected_p2p_tests := [],
          total_tokens := none, input_tokens := none,
          output_tokens := none } : AgentManager.EvalResult)
      = AgentManager.EvalResult.ok
        { agent := "trae-agent".data, model := "m".data,
          instance_id := "demo-1".data,
          success_f2p := false, success_p2p := true, success := false,
          passed_f2p_tests := ["t1".data], passed_p2p_tests := [],
          expected_f2p_tests := ["t1".data, "t2".data],
          expected_p2p_tests := [],
          total_tokens := none, input_tokens := none,
          output_tokens := none }) ∧
    ∀ r, (AgentManager.evaluate "trae-agent".data "m".data
        ⟨"demo-1".data, "repo".data, "c0".data, "t1, t2".data, [], []⟩
        true "out".data (fun _ _ => (["t1".data], "log".data))
        (fun _ => none)).1 = AgentManager.EvalResult.ok r →
      (((r.success_f2p = true) ↔
        ∀ t ∈ r.expected_f2p_tests, t ∈ r.passed_f2p_tests) ∧
      ((r.success_p2p = true) ↔
        ∀ t ∈ r.expected_p2p_tests, t ∈ r.passed_p2p_tests) ∧
      r.success = (r.success_f2p && r.success_p2p)) :=
  ⟨by decide, fun r h => C1_evaluate_verdict "trae-agent".data "m".data
    ⟨"demo-1".data, "repo".data, "c0".data, "t1, t2".data, [], []⟩
    "out".data (fun _ _ => (["t1".data], "log".data)) (fun _ => none) r h⟩

/- ### C2: parameterized aggregation rule -/

/-- C2: for every non-empty map of parameterized variants,
`_aggregate_parametrized_results` computes exactly the specification's
cascade (FAILED on any bad variant; else PASSED when all are in
{PASSED, SKIPPED} with at least one PASSED; else SKIPPED when all are
SKIPPED; otherwise UNKNOWN). -/
theorem C2_aggregate_matches_rule
    (m : List (Str × PytestResultParser.TestStatus)) (h : m ≠ []) :
    PytestResultParser.aggregate_parametrized_results m =
      PytestResultParser.aggregateSpecRule (m.map (fun p => p.2)) := by
  unfold PytestResultParser.aggregate_parametrized_results
    PytestResultParser.aggregateSpecRule
  have hne : m.isEmpty = false := by
    cases m with
    | nil => exact absurd rfl h
    | cons a l => rfl
  rw [if_neg (by simp [hne])]
  cases hb : (m.map (fun p => p.2)).any
      (fun s => s == .FAILED || s == .ERROR || s == .UNKNOWN) with
  | true => simp [hb]
  | false =>
    have hball := List.any_eq_false.mp hb
    have hps : (m.map (fun p => p.2)).all
        (fun s => s == PytestResultParser.TestStatus.PASSED ||
          s == PytestResultParser.TestStatus.SKIPPED) = true := by
      rw [List.all_eq_true]
      intro s hs
      have hbad := hball s hs
      cases s
      · decide
      · exact absurd (by decide) hbad
      · decide
      · exact absurd (by decide) hbad
      · exact absurd (by decide) hbad
    cases hp : (m.map (fun p => p.2)).any
        (fun s => s == PytestResultParser.TestStatus.PASSED) with
    | true => simp [hb, hps, hp]
    | false =>
      have hpall := List.any_eq_false.mp hp
      have hsk : (m.map (fun p => p.2)).all
          (fun s => s == PytestResultParser.TestStatus.SKIPPED) = true := by
        rw [List.all_eq_true]
        intro s hs
        have h1 := hball s hs
        have h2 := hpall s hs
        cases s
        · exact absurd (by decide) h2
        · exact absurd (by decide) h1
        · decide
        · exact absurd (by decide) h1
        · exact absurd (by decide) h1
      simp [hb, hps, hp, hsk]

/-- Witness for C2 on the concrete map {q[1] ↦ PASSED, q[2] ↦ FAILED}. -/
theorem C2_aggregate_matches_rule_witness :
    PytestResultParser.aggregate_parametrized_results
        [("q[1]".data, PytestResultParser.TestStatus.PASSED),
         ("q[2]".data, PytestResultParser.TestStatus.FAILED)] =
      PytestResultParser.aggregateSpecRule
        [PytestResultParser.TestStatus.PASSED,
         PytestResultParser.TestStatus.FAILED] :=
  C2_aggregate_matches_rule
    [("q[1]".data, PytestResultParser.TestStatus.PASSED),
     ("q[2]".data, PytestResultParser.TestStatus.FAILED)] (by decide)

/- ### C4: in-container timeout handling in the command executor -/

/-- Counterexample for C4: at a wrapped exit code of 124 under a 30s
timeout, `_exec` raises `TestExecutionError`, but the public `execute`
catches every exception and converts it into the ordinary return value
`(1, str(e))` — the error is *not* surfaced to `execute`'s caller. -/
theorem C4_execute_converts_timeout_counterexample :
    DockerCommandExecutor.execInner (some 30) 124 [] =
      Except.error (DockerCommandExecutor.timeoutMessage 30) ∧
    DockerCommandExecutor.execute (some 30) 124 [] =
      (1, DockerCommandExecutor.timeoutMessage 30) :=
  ⟨rfl, rfl⟩

/-- C4 (amended): for every command run with a timeout whose in-container
`timeout` wrapper exits with code 124 or 137, `_exec` raises
`TestExecutionError` (the timeout error), and the public `execute`
converts that exception into the ordinary return value `(1, message)`
instead of propagating it. -/
theorem C4_execute_timeout_ordinary_return (t : Nat) (rawExit : Int)
    (out : Str) (h : rawExit = 124 ∨ rawExit = 137) :
    DockerCommandExecutor.execInner (some t) rawExit out =
      Except.error (DockerCommandExecutor.timeoutMessage t) ∧
    DockerCommandExecutor.execute (some t) rawExit out =
      (1, DockerCommandExecutor.timeoutMessage t) := by
  rcases h with h | h <;> subst h <;> exact ⟨rfl, rfl⟩

/-- Witness for C4 (amended) at exit code 137 and a 1200s timeout. -/
theorem C4_execute_timeout_ordinary_return_witness :
    DockerCommandExecutor.execInner (some 1200) 137 "out".data =
      Except.error (DockerCommandExecutor.timeoutMessage 1200) ∧
    DockerCommandExecutor.execute (some 1200) 137 "out".data =
      (1, DockerCommandExecutor.timeoutMessage 1200) :=
  C4_execute_timeout_ordinary_return 1200 137 "out".data (Or.inr rfl)

/- ### C5: persistence of evaluation results -/

/-- Counterexample for C5: at a concrete save, the trace of file-system
operations is a directory creation followed by a direct write to the final
results path — it contains no rename, so the save is not of the
write-temp-then-rename form the claim asserts. -/
theorem C5_save_results_no_rename_counterexample :
    EvaluationResultManager.save_evaluation_results "/base".data
        "20240101-000000_model".data "[]".data "evaluation_results.json".data =
      [EvaluationResultManager.FsOp.mkdirParents "/base/results".data,
       EvaluationResultManager.FsOp.writeFile
         "/base/results/evaluation_results_20240101-000000_model.json".data
         "[]".data] ∧
    ∀ op ∈ EvaluationResultManager.save_evaluation_results "/base".data
        "20240101-000000_model".data "[]".data "evaluation_results.json".data,
      op.isRename = false := by
  constructor
  · decide
  · decide

/-- C5 (amended): every persistence of the result list writes the JSON
content directly to the final results path (after creating the directory);
no temporary file is written and no rename is performed. -/
theorem C5_save_results_direct_write (base_path exp_suffix content filename : Str) :
    EvaluationResultManager.save_evaluation_results base_path exp_suffix
        content filename =
      [EvaluationResultManager.FsOp.mkdirParents (base_path ++ "/results".data),
       EvaluationResultManager.FsOp.writeFile
         (base_path ++ "/results".data ++ "/".data ++
           ((EvaluationResultManager.pathSplitExt filename).1 ++ "_".data ++
             exp_suffix ++ (EvaluationResultManager.pathSplitExt filename).2))
         content] ∧
    ∀ op ∈ EvaluationResultManager.save_evaluation_results base_path
        exp_suffix content filename, op.isRename = false := by
  refine ⟨rfl, ?_⟩
  intro op hop
  unfold EvaluationResultManager.save_evaluation_results at hop
  simp only [List.mem_cons, List.mem_singleton] at hop
  rcases hop with h | h | h
  · subst h; rfl
  · subst h; rfl
  · exact absurd h (List.not_mem_nil op)

/- ### C8: agent-failure evaluations -/

/-- C8 (amended): when the agent run reports failure, the recorded result
is the failure record with `success = false` and `error` equal to the
agent's output (which may be empty), and no working-tree phase — checkout,
patch application or test run — occurs after the agent run (only the log
ownership fix does). -/
theorem C8_evaluate_agent_failure (agent_name model_name : Str)
    (spec : AgentManager.SpecInput) (agent_output : Str)
    (run : List Str → Bool → List Str × Str)
    (parse_agent_log : Str → Option AgentManager.Tokens) :
    AgentManager.evaluate agent_name model_name spec false agent_output run
        parse_agent_log =
      (AgentManager.EvalResult.err agent_name model_name spec.instance_id
        false agent_output,
       [AgentManager.Phase.checkout spec.base_commit [],
        AgentManager.Phase.agentRun, AgentManager.Phase.chownLogs]) ∧
    ∀ q ∈ AgentManager.phasesAfterAgentRun
        (AgentManager.evaluate agent_name model_name spec false agent_output
          run parse_agent_log).2,
      q.isTestStage = false := by
  refine ⟨rfl, ?_⟩
  intro q hq
  have e : AgentManager.phasesAfterAgentRun
      (AgentManager.evaluate agent_name model_name spec false agent_output
        run parse_agent_log).2 = [AgentManager.Phase.chownLogs] := rfl
  rw [e] at hq
  simp only [List.mem_singleton] at hq
  subst hq
  rfl

/-- Counterexample for C8 as stated: with an empty agent output, the
recorded failure result's `error` field is the empty string — the claim's
"non-empty error field" does not hold on the code, which stores the agent
output verbatim. -/
theorem C8_empty_error_counterexample :
    (AgentManager.evaluate "trae-agent".data "m".data
        ⟨"demo-1".data, "repo".data, "c0".data, [], [], []⟩ false []
        (fun _ _ => ([], [])) (fun _ => none)).1 =
      AgentManager.EvalResult.err "trae-agent".data "m".data "demo-1".data
        false [] ∧ ([] : Str).isEmpty = true :=
  ⟨rfl, rfl⟩

/- ### C7: cache-resumption idempotence of the scheduler -/

/-- C7: when every `(agent, instance_id)` pair of the (per-repo capped)
dataset is already cached, the scheduler's work list is empty and zero
containers are created; and any pair whose agent is absent from the cache
is still attempted (its agent appears in the remaining-agents of the
corresponding work-list entry). -/
theorem C7_scheduler_resumption (agents : List Str)
    (specs_by_repo : List (List Str)) (evaluated_keys : List (Str × Str))
    (max_specs_per_repo : Nat) :
    ((∀ rs ∈ specs_by_repo, ∀ sid ∈ rs.take max_specs_per_repo,
        ∀ a ∈ agents, (a, sid) ∈ evaluated_keys) →
      AgentEvaluator.containerCreations agents specs_by_repo evaluated_keys
        max_specs_per_repo = 0) ∧
    (∀ rs ∈ specs_by_repo, ∀ sid ∈ rs.take max_specs_per_repo, ∀ b ∈ agents,
      (b, sid) ∉ evaluated_keys →
      ∃ entry ∈ AgentEvaluator.buildWorkList agents specs_by_repo
          evaluated_keys max_specs_per_repo,
        entry.2 = sid ∧ b ∈ entry.1) := by
  constructor
  · intro hall
    unfold AgentEvaluator.containerCreations
    rw [List.length_eq_zero]
    unfold AgentEvaluator.buildWorkList
    rw [List.flatten_eq_nil_iff]
    intro l hl
    rw [List.mem_map] at hl
    obtain ⟨rs, hrs, rfl⟩ := hl
    rw [List.filterMap_eq_nil_iff]
    intro sid hsid
    have hrem : agents.filter
        (fun a => decide ((a, sid) ∉ evaluated_keys)) = [] := by
      rw [List.filter_eq_nil_iff]
      intro a ha
      simp only [decide_eq_true_eq, Decidable.not_not]
      exact hall rs hrs sid hsid a ha
    simp only [hrem, List.isEmpty_nil, if_true]
  · intro rs hrs sid hsid b hb hnot
    unfold AgentEvaluator.buildWorkList
    have hbmem : b ∈ agents.filter
        (fun a => decide ((a, sid) ∉ evaluated_keys)) := by
      rw [List.mem_filter]
      exact ⟨hb, by simpa using hnot⟩
    have hne : (agents.filter
        (fun a => decide ((a, sid) ∉ evaluated_keys))).isEmpty = false := by
      cases hf : agents.filter (fun a => decide ((a, sid) ∉ evaluated_keys)) with
      | nil => rw [hf] at hbmem; exact absurd hbmem (List.not_mem_nil b)
      | cons x xs => rfl
    refine ⟨(agents.filter (fun a => decide ((a, sid) ∉ evaluated_keys)), sid),
      ?_, rfl, hbmem⟩
    rw [List.mem_flatten]
    refine ⟨_, List.mem_map_of_mem _ hrs, ?_⟩
    rw [List.mem_filterMap]
    refine ⟨sid, hsid, ?_⟩
    simp only [hne, Bool.false_eq_true, if_false]

/-- Witness for C7: a cached `(agentA, instance-42)` pair is skipped while
`(agentB, instance-42)` is still attempted. -/
theorem C7_scheduler_resumption_witness :
    ∃ entry ∈ AgentEvaluator.buildWorkList ["agentA".data, "agentB".data]
        [["instance-42".data]] [("agentA".data, "instance-42".data)] 5,
      entry.2 = "instance-42".data ∧ "agentB".data ∈ entry.1 :=
  (C7_scheduler_resumption ["agentA".data, "agentB".data]
      [["instance-42".data]] [("agentA".data, "instance-42".data)] 5).2
    ["instance-42".data] (by decide) "instance-42".data (by decide)
    "agentB".data (by decide) (by decide)

/- ### Supporting lemmas: substring occurrence and splitting -/

theorem containsStr_iff_infix (sub s : Str) :
    containsStr sub s = true ↔ sub <:+: s := by
  induction s with
  | nil =>
    unfold containsStr
    cases sub with
    | nil => simp
    | cons c cs => simp
  | cons a rest ih =>
    unfold containsStr
    rw [Bool.or_eq_true, List.isPrefixOf_iff_prefix, ih, List.infix_cons_iff]

theorem splitGo_no_occur (c : Char) (sep : Str) (fuel : Nat) (s : Str)
    (hfuel : s.length ≤ fuel) (h : containsStr (c :: sep) s = false) :
    splitGo c sep fuel s = [s] := by
  induction fuel generalizing s with
  | zero =>
    cases s with
    | nil => rfl
    | cons a rest => simp at hfuel
  | succ fuel ih =>
    cases s with
    | nil => rfl
    | cons a rest =>
      unfold containsStr at h
      rw [Bool.or_eq_false_iff] at h
      unfold splitGo
      rw [if_neg (by simp [h.1])]
      rw [ih rest (by simp only [List.length_cons] at hfuel; omega) h.2]

theorem pySplit_no_occur (sep s : Str) (hne : sep ≠ [])
    (h : containsStr sep s = false) : pySplit sep s = [s] := by
  cases sep with
  | nil => exact absurd rfl hne
  | cons c cs =>
    unfold pySplit splitOnSep
    exact splitGo_no_occur c cs s.length s (Nat.le_refl _) h

theorem splitOnP_head_prefix (p : Char → Bool) (l : Str) :
    ∃ h t, l.splitOnP p = h :: t ∧ h <+: l := by
  induction l with
  | nil => exact ⟨[], [], rfl, List.nil_prefix⟩
  | cons a rest ih =>
    rw [List.splitOnP_cons]
    by_cases hp : p a = true
    · rw [if_pos hp]; exact ⟨[], _, rfl, List.nil_prefix⟩
    · rw [if_neg hp]
      obtain ⟨h, t, he, hpre⟩ := ih
      rw [he]
      refine ⟨a :: h, t, rfl, ?_⟩
      obtain ⟨r, hr⟩ := hpre
      exact ⟨r, by rw [List.cons_append, hr]⟩

theorem splitOn_head_prefix (l : Str) (x : Char) :
    ∃ h t, l.splitOn x = h :: t ∧ h <+: l :=
  splitOnP_head_prefix (fun a => a == x) l

theorem lstrip_suffix (s : Str) : lstrip s <:+ s := List.dropWhile_suffix _

theorem rstrip_front (s : Str) : rstrip s <+: s := by
  unfold rstrip
  have h1 : s.reverse.dropWhile isPySpace <:+ s.reverse :=
    List.dropWhile_suffix _
  have h2 : ((s.reverse.dropWhile isPySpace).reverse).reverse <:+
      s.reverse := by
    rwa [List.reverse_reverse]
  exact List.reverse_suffix.mp h2

theorem pyStrip_sub (s : Str) : pyStrip s <:+: s := by
  unfold pyStrip
  exact ((rstrip_front (lstrip s)).isInfix).trans (lstrip_suffix s).isInfix

/- ### C3: parsing a diff without a `diff --git` header -/

/-- Counterexample for C3: on an input with no `diff --git` header at all,
`parse_unified_diff` returns the empty list — an ordinary result.  It does
not fail: the parser has no failure path, and no `MalformedDiff` error
exists anywhere in the code base (`core/exceptions.py` defines no such
class). -/
theorem C3_parse_no_header_returns_counterexample :
    PatchAnalyzer.parse_unified_diff "hello world".data = [] := by decide

/-- C3 (amended): for every input string that does not contain the
substring `diff --git`, `parse_unified_diff` returns the empty list (the
single block either is blank or fails the header regex and is silently
dropped); no error is raised. -/
theorem C3_parse_no_header_empty (s : Str)
    (h : containsStr "diff --git".data s = false) :
    PatchAnalyzer.parse_unified_diff s = [] := by
  have hnl : containsStr "\ndiff --git".data s = false := by
    cases hc : containsStr "\ndiff --git".data s with
    | false => rfl
    | true => exact absurd (containsStr_tail _ _ _ hc) (by simp [h])
  unfold PatchAnalyzer.parse_unified_diff
  rw [pySplit_no_occur _ _ (by decide) hnl]
  simp only [List.map_nil, List.filterMap]
  cases hse : (pyStrip s).isEmpty with
  | true => simp [List.filterMap_cons, hse]
  | false =>
    simp only [List.filterMap_cons, hse, Bool.false_eq_true, if_false]
    have hnone : PatchAnalyzer.parse_single_file_diff s = none := by
      unfold PatchAnalyzer.parse_single_file_diff
      obtain ⟨g, t, he, hpre⟩ := splitOn_head_prefix (pyStrip s) '\n'
      rw [he]
      have hng : "diff --git a/".data.isPrefixOf g = false := by
        cases hg : "diff --git a/".data.isPrefixOf g with
        | false => rfl
        | true =>
          exfalso
          have h1 : "diff --git".data <+: g :=
            List.IsPrefix.trans (by decide)
              (List.isPrefixOf_iff_prefix.mp hg)
          have h2 : "diff --git".data <:+: s :=
            (h1.isInfix).trans ((hpre.isInfix).trans (pyStrip_sub s))
          rw [← containsStr_iff_infix] at h2
          exact absurd h2 (by simp [h])
      simp only [PatchAnalyzer.extract_file_info, PatchAnalyzer.matchGitAB,
        hng, Bool.false_eq_true, if_false]
    rw [hnone]

/-- Witness for C3 (amended) on a concrete header-less input. -/
theorem C3_parse_no_header_empty_witness :
    PatchAnalyzer.parse_unified_diff "hello world".data = [] :=
  C3_parse_no_header_empty "hello world".data (by decide)

/- ### C10: status invariant of parsed patch records -/

theorem statusScan_cases (old_file : Str) (L : List Str) :
    PatchAnalyzer.statusScan old_file L = ("added".data, none) ∨
    PatchAnalyzer.statusScan old_file L = ("removed".data, none) ∨
    PatchAnalyzer.statusScan old_file L = ("renamed".data, some old_file) ∨
    PatchAnalyzer.statusScan old_file L = ("modified".data, none) := by
  induction L with
  | nil => right; right; right; rfl
  | cons l ls ih =>
    unfold PatchAnalyzer.statusScan
    by_cases h1 : "new file mode".data.isPrefixOf l = true
    · rw [if_pos h1]; left; rfl
    · rw [if_neg h1]
      by_cases h2 : "deleted file mode".data.isPrefixOf l = true
      · rw [if_pos h2]; right; left; rfl
      · rw [if_neg h2]
        by_cases h3 : "rename from".data.isPrefixOf l = true
        · rw [if_pos h3]; right; right; left; rfl
        · rw [if_neg h3]; exact ih

theorem parse_single_file_diff_invariant (d : Str)
    (p : PatchAnalyzer.PatchInfo)
    (h : PatchAnalyzer.parse_single_file_diff d = some p) :
    (p.status = "added".data ∨ p.status = "modified".data ∨
      p.status = "removed".data ∨ p.status = "renamed".data) ∧
    (p.old_filename ≠ none ↔ p.status = "renamed".data) := by
  unfold PatchAnalyzer.parse_single_file_diff at h
  cases hsp : (pyStrip d).splitOn '\n' with
  | nil => rw [hsp] at h; exact absurd h (by simp)
  | cons g t =>
    rw [hsp] at h
    simp only at h
    revert h
    unfold PatchAnalyzer.extract_file_info
    cases hm : PatchAnalyzer.matchGitAB g with
    | none => intro h; exact absurd h (by simp)
    | some q =>
      obtain ⟨o, n⟩ := q
      simp only
      rcases statusScan_cases o ((g :: t).take 10) with hc | hc | hc | hc <;>
          rw [hc] <;> simp only <;> intro h
      · rw [if_neg (show ¬ (("added".data : Str) = "removed".data) by decide)]
          at h
        by_cases he : n.isEmpty = true
        · rw [if_pos he] at h; exact absurd h (by simp)
        · rw [if_neg he] at h
          have h2 := (Option.some.injEq _ _).mp h
          subst h2
          exact ⟨Or.inl rfl, by simp⟩
      · simp only [if_true] at h
        by_cases he : o.isEmpty = true
        · rw [if_pos he] at h; exact absurd h (by simp)
        · rw [if_neg he] at h
          have h2 := (Option.some.injEq _ _).mp h
          subst h2
          exact ⟨Or.inr (Or.inr (Or.inl rfl)), by simp⟩
      · rw [if_neg (show ¬ (("renamed".data : Str) = "removed".data) by decide)]
          at h
        by_cases he : n.isEmpty = true
        · rw [if_pos he] at h; exact absurd h (by simp)
        · rw [if_neg he] at h
          have h2 := (Option.some.injEq _ _).mp h
          subst h2
          exact ⟨Or.inr (Or.inr (Or.inr rfl)), by simp⟩
      · rw [if_neg (show ¬ (("modified".data : Str) = "removed".data) by decide)]
          at h
        by_cases he : n.isEmpty = true
        · rw [if_pos he] at h; exact absurd h (by simp)
        · rw [if_neg he] at h
          have h2 := (Option.some.injEq _ _).mp h
          subst h2
          exact ⟨Or.inr (Or.inl rfl), by simp⟩

/-- C10: every record returned by `parse_unified_diff` has status in
{added, modified, removed, renamed} (the internal "unknown" status never
escapes, since a block whose header does not match is dropped), and its
`old_filename` is non-`None` exactly when its status is `renamed`. -/
theorem C10_parse_status_invariant (s : Str) (p : PatchAnalyzer.PatchInfo)
    (h : p ∈ PatchAnalyzer.parse_unified_diff s) :
    (p.status = "added".data ∨ p.status = "modified".data ∨
      p.status = "removed".data ∨ p.status = "renamed".data) ∧
    (p.old_filename ≠ none ↔ p.status = "renamed".data) := by
  unfold PatchAnalyzer.parse_unified_diff at h
  rw [List.mem_filterMap] at h
  obtain ⟨fd, _, hf⟩ := h
  by_cases hse : (pyStrip fd).isEmpty = true
  · rw [if_pos hse] at hf; exact absurd hf (by simp)
  · rw [if_neg hse] at hf
    exact parse_single_file_diff_invariant fd p hf

/-- Witness for C10 on a concrete two-file diff (one added file, one
rename). -/
theorem C10_parse_status_invariant_witness :
    ({ filename := "b.py".data, status := "renamed".data,
       patch_content := [],
       is_test_file := false, old_filename := some "a.py".data } :
        PatchAnalyzer.PatchInfo) ∈
      PatchAnalyzer.parse_unified_diff
        ("diff --git a/a.py b/b.py\nsimilarity index 100%\n" ++
          "rename from a.py\nrename to b.py").data ∧
    ((("renamed".data : Str) = "added".data ∨
      ("renamed".data : Str) = "modified".data ∨
      ("renamed".data : Str) = "removed".data ∨
      ("renamed".data : Str) = "renamed".data) ∧
    ((some "a.py".data ≠ none) ↔ (("renamed".data : Str) = "renamed".data))) :=
  ⟨by decide,
    C10_parse_status_invariant
      ("diff --git a/a.py b/b.py\nsimilarity index 100%\n" ++
        "rename from a.py\nrename to b.py").data
      { filename := "b.py".data, status := "renamed".data,
        patch_content := [],
        is_test_file := false, old_filename := some "a.py".data }
      (by decide)⟩

/- ### C6: command-length batching in `run_tests_in_container` -/

theorem chunks250_flatten (args : List Str) :
    (ContainerOperator.chunks250 args).flatten = args := by
  induction args using ContainerOperator.chunks250.induct with
  | case1 => simp [ContainerOperator.chunks250]
  | case2 a rest ih =>
    unfold ContainerOperator.chunks250
    rw [List.flatten_cons, ih, List.take_append_drop]

theorem chunks250_size (args : List Str) (b : List Str)
    (h : b ∈ ContainerOperator.chunks250 args) : b.length ≤ 250 := by
  induction args using ContainerOperator.chunks250.induct with
  | case1 => simp [ContainerOperator.chunks250] at h
  | case2 a rest ih =>
    unfold ContainerOperator.chunks250 at h
    rw [List.mem_cons] at h
    rcases h with h | h
    · subst h; exact List.length_take_le _ _
    · exact ih h

theorem run_tests_in_batches_output (execute : Str → Str) (base : Str)
    (args : List Str) (expected : List PytestResultParser.TestStatus) :
    (ContainerOperator.run_tests_in_batches execute base args expected).2 =
      (ContainerOperator.chunks250 args).map
        (fun b => execute (ContainerOperator.testCmd base b)) := by
  induction args using ContainerOperator.chunks250.induct with
  | case1 =>
    simp [ContainerOperator.run_tests_in_batches, ContainerOperator.chunks250]
  | case2 a rest ih =>
    unfold ContainerOperator.run_tests_in_batches ContainerOperator.chunks250
    simp only [List.map_cons]
    rw [← ih]

theorem run_tests_in_batches_matched (execute : Str → Str) (base : Str)
    (args : List Str) (expected : List PytestResultParser.TestStatus)
    (x : Str) :
    (x ∈ (ContainerOperator.run_tests_in_batches execute base args
        expected).1) ↔
      ∃ b ∈ ContainerOperator.chunks250 args,
        x ∈ ContainerOperator.parse_pytest_output
          (execute (ContainerOperator.testCmd base b)) b expected := by
  induction args using ContainerOperator.chunks250.induct with
  | case1 =>
    unfold ContainerOperator.run_tests_in_batches ContainerOperator.chunks250
    simp
  | case2 a rest ih =>
    unfold ContainerOperator.run_tests_in_batches ContainerOperator.chunks250
    simp only [List.mem_union_iff, List.mem_cons]
    constructor
    · intro h
      rcases h with h | h
      · exact ⟨(a :: rest).take 250, Or.inl rfl, h⟩
      · obtain ⟨b, hb, hx⟩ := ih.mp h
        exact ⟨b, Or.inr hb, hx⟩
    · intro h
      obtain ⟨b, hb, hx⟩ := h
      rcases hb with hb | hb
      · subst hb; exact Or.inl hx
      · exact Or.inr (ih.mpr ⟨b, hb, hx⟩)

/-- C6: for every list of test selectors whose estimated command length
exceeds 100,000 characters, `run_tests_in_container` splits the selectors
in order into batches of at most 250 (the batches concatenate back to the
selector list), executes them one after another, and returns the union of
the per-batch parsed sets together with the newline-joined raw outputs. -/
theorem C6_run_tests_batching (execute : Str → Str) (findDirs : List Str)
    (args : List Str) (expected : List PytestResultParser.TestStatus)
    (use_xdist : Bool)
    (h : ContainerOperator.estimated_length
      (ContainerOperator.base_cmd use_xdist) args > 100000) :
    ∃ M O, ContainerOperator.run_tests_in_container execute findDirs
        (ContainerOperator.TestFiles.strs args) expected use_xdist =
        some (M, O) ∧
      (∀ x, x ∈ M ↔ ∃ b ∈ ContainerOperator.chunks250 args,
        x ∈ ContainerOperator.parse_pytest_output
          (execute (ContainerOperator.testCmd
            (ContainerOperator.base_cmd use_xdist) b)) b expected) ∧
      O = List.intercalate ['\n'] ((ContainerOperator.chunks250 args).map
        (fun b => execute (ContainerOperator.testCmd
          (ContainerOperator.base_cmd use_xdist) b))) ∧
      (ContainerOperator.chunks250 args).flatten = args ∧
      (∀ b ∈ ContainerOperator.chunks250 args, b.length ≤ 250) := by
  refine ⟨(ContainerOperator.run_tests_in_batches execute
      (ContainerOperator.base_cmd use_xdist) args expected).1,
    List.intercalate ['\n']
      ((ContainerOperator.run_tests_in_batches execute
        (ContainerOperator.base_cmd use_xdist) args expected).2), ?_, ?_, ?_,
    chunks250_flatten args, chunks250_size args⟩
  · unfold ContainerOperator.run_tests_in_container
    simp only [if_pos h]
  · intro x
    exact run_tests_in_batches_matched execute _ args expected x
  · rw [run_tests_in_batches_output]

/-- Witness for C6: 400 selectors of 300 characters each (estimated length
400 * 301 plus the base command, above the 100,000 threshold). -/
theorem C6_run_tests_batching_witness :
    ∃ M O, ContainerOperator.run_tests_in_container (fun _ => []) []
        (ContainerOperator.TestFiles.strs
          (List.replicate 400 (List.replicate 300 'a')))
        [PytestResultParser.TestStatus.PASSED] true = some (M, O) ∧
      (∀ x, x ∈ M ↔ ∃ b ∈ ContainerOperator.chunks250
          (List.replicate 400 (List.replicate 300 'a')),
        x ∈ ContainerOperator.parse_pytest_output
          ((fun _ => []) (ContainerOperator.testCmd
            (ContainerOperator.base_cmd true) b)) b
          [PytestResultParser.TestStatus.PASSED]) ∧
      O = List.intercalate ['\n']
        ((ContainerOperator.chunks250
          (List.replicate 400 (List.replicate 300 'a'))).map
          (fun b => (fun _ => []) (ContainerOperator.testCmd
            (ContainerOperator.base_cmd true) b))) ∧
      (ContainerOperator.chunks250
        (List.replicate 400 (List.replicate 300 'a'))).flatten =
        List.replicate 400 (List.replicate 300 'a') ∧
      (∀ b ∈ ContainerOperator.chunks250
          (List.replicate 400 (List.replicate 300 'a')), b.length ≤ 250) :=
  C6_run_tests_batching (fun _ => []) []
    (List.replicate 400 (List.replicate 300 'a'))
    [PytestResultParser.TestStatus.PASSED] true (by
      unfold ContainerOperator.estimated_length
      simp only [List.map_replicate, List.sum_replicate,
        List.length_replicate, smul_eq_mul]
      omega)

/- ### Supporting lemmas: line joining and stripping -/

theorem intercalate_nl_cons (l : Str) (ls : List Str) (h : ls ≠ []) :
    List.intercalate ['\n'] (l :: ls) =
      l ++ '\n' :: List.intercalate ['\n'] ls := by
  cases ls with
  | nil => exact absurd rfl h
  | cons a t =>
    unfold List.intercalate
    rw [List.intersperse_cons_cons]
    simp

theorem linesJoin_append (A B : List Str) :
    linesJoin (A ++ B) = linesJoin A ++ linesJoin B := by
  induction A with
  | nil => simp [linesJoin]
  | cons l ls ih => simp [linesJoin, ih]

theorem linesJoin_eq_intercalate (L : List Str) (h : L ≠ []) :
    linesJoin L = List.intercalate ['\n'] L ++ ['\n'] := by
  induction L with
  | nil => exact absurd rfl h
  | cons l ls ih =>
    cases ls with
    | nil => simp [linesJoin, List.intercalate]
    | cons a t =>
      rw [intercalate_nl_cons l (a :: t) (by simp)]
      unfold linesJoin
      rw [ih (by simp)]
      simp

theorem splitOn_ne_nil (s : Str) (c : Char) : s.splitOn c ≠ [] :=
  List.splitOnP_ne_nil _ s

theorem linesJoin_splitOn (s : Str) :
    linesJoin (s.splitOn '\n') = s ++ ['\n'] := by
  rw [linesJoin_eq_intercalate _ (splitOn_ne_nil s '\n'),
    List.intercalate_splitOn]

theorem mem_splitOnP_chars (p : Char → Bool) (s : Str) (l : Str)
    (h : l ∈ s.splitOnP p) : ∀ c ∈ l, p c = false := by
  induction s generalizing l with
  | nil =>
    rw [List.splitOnP_nil, List.mem_singleton] at h
    subst h; intro c hc; exact absurd hc (List.not_mem_nil c)
  | cons a rest ih =>
    rw [List.splitOnP_cons] at h
    by_cases hp : p a = true
    · rw [if_pos hp, List.mem_cons] at h
      rcases h with h | h
      · subst h; intro c hc; exact absurd hc (List.not_mem_nil c)
      · exact ih l h
    · rw [if_neg hp] at h
      obtain ⟨h0, t0, he, _⟩ := splitOnP_head_prefix p rest
      rw [he] at h
      simp only [List.modifyHead, List.mem_cons] at h
      rcases h with h | h
      · subst h
        intro c hc
        rw [List.mem_cons] at hc
        rcases hc with hc | hc
        · subst hc; exact Bool.eq_false_iff.mpr hp
        · exact ih (h0) (by rw [he]; exact List.mem_cons_self _ _) c hc
      · exact ih l (by rw [he]; exact List.mem_cons_of_mem _ h)

theorem mem_splitOn_nl (s l : Str) (h : l ∈ s.splitOn '\n') : '\n' ∉ l := by
  intro hc
  have := mem_splitOnP_chars _ s l h '\n' hc
  simp at this

theorem lstrip_cons_nospace (a : Char) (s : Str) (h : isPySpace a = false) :
    lstrip (a :: s) = a :: s := by
  unfold lstrip
  rw [List.dropWhile_cons, if_neg (by simp [h])]

theorem rstrip_append_space (s : Str) (c : Char) (h : isPySpace c = true) :
    rstrip (s ++ [c]) = rstrip s := by
  unfold rstrip
  rw [List.reverse_append]
  simp [List.dropWhile_cons, h]

theorem rstrip_eq_self_of_last (s : Str)
    (h : s.getLast?.all (fun c => !isPySpace c) = true) : rstrip s = s := by
  cases hr : s.reverse with
  | nil =>
    have : s = [] := by simpa using congrArg List.reverse hr
    subst this; rfl
  | cons c r =>
    have hlast : s.getLast? = some c := by
      rw [← List.head?_reverse, hr]; rfl
    rw [hlast] at h
    simp only [Option.all_some, Bool.not_eq_true'] at h
    unfold rstrip
    rw [hr, List.dropWhile_cons, if_neg (by simp [h])]
    rw [← hr, List.reverse_reverse]

theorem takeWhile_ne_nl (G : Str) (h : '\n' ∉ G) :
    G.takeWhile (fun c => c != '\n') = G := by
  induction G with
  | nil => rfl
  | cons a rest ih =>
    rw [List.mem_cons, not_or] at h
    rw [List.takeWhile_cons, if_pos (by simp [Ne.symm h.1])]
    rw [ih h.2]

theorem isEmpty_false_of_ne_nil (s : Str) (h : s ≠ []) :
    s.isEmpty = false := by
  cases s with
  | nil => exact absurd rfl h
  | cons a t => rfl

/- ### Supporting lemmas: occurrences in newline-joined line lists -/

theorem containsStr_cons_eq (sub : Str) (a : Char) (rest : Str) :
    containsStr sub (a :: rest) =
      (sub.isPrefixOf (a :: rest) || containsStr sub rest) := rfl

theorem containsStr_nl_skip (w l rest : Str) (h : '\n' ∉ l) :
    containsStr ('\n' :: w) (l ++ rest) = containsStr ('\n' :: w) rest := by
  induction l with
  | nil => simp
  | cons a l' ih =>
    rw [List.mem_cons, not_or] at h
    rw [List.cons_append, containsStr_cons_eq]
    have hp : ('\n' :: w).isPrefixOf (a :: (l' ++ rest)) = false := by
      have e : ('\n' :: w).isPrefixOf (a :: (l' ++ rest)) =
          (('\n' : Char) == a && w.isPrefixOf (l' ++ rest)) := rfl
      rw [e, beq_eq_false_iff_ne.mpr h.1]
      simp
    rw [hp, ih h.2]
    simp

theorem isPrefixOf_line_bound (w l z : Str) (hw : '\n' ∉ w) (hl : '\n' ∉ l)
    (h : w.isPrefixOf (l ++ '\n' :: z) = true) : w.isPrefixOf l = true := by
  induction w generalizing l with
  | nil =>
    rw [List.isPrefixOf_iff_prefix]
    exact List.nil_prefix
  | cons c w' ih =>
    rw [List.mem_cons, not_or] at hw
    cases l with
    | nil =>
      exfalso
      simp only [List.nil_append] at h
      have h2 : (c == '\n' && w'.isPrefixOf z) = true := h
      rw [Bool.and_eq_true, beq_iff_eq] at h2
      exact hw.1 h2.1.symm
    | cons b l' =>
      rw [List.mem_cons, not_or] at hl
      rw [List.cons_append] at h
      have h2 : (c == b && w'.isPrefixOf (l' ++ '\n' :: z)) = true := h
      rw [Bool.and_eq_true] at h2
      have h3 : (c :: w').isPrefixOf (b :: l') =
          (c == b && w'.isPrefixOf l') := rfl
      rw [h3, Bool.and_eq_true]
      exact ⟨h2.1, ih l' hw.2 hl.2 h2.2⟩

theorem linesJoin_no_occurrence (w : Str) (L : List Str) (hw : w ≠ [])
    (hwnl : '\n' ∉ w) (hnl : ∀ l ∈ L, '\n' ∉ l)
    (hnp : ∀ l ∈ L, w.isPrefixOf l = false) :
    containsStr ('\n' :: w) (linesJoin L) = false ∧
    w.isPrefixOf (linesJoin L) = false := by
  induction L with
  | nil =>
    constructor
    · rfl
    · cases w with
      | nil => exact absurd rfl hw
      | cons c w' => rfl
  | cons l ls ih =>
    have ihr := ih (fun x hx => hnl x (List.mem_cons_of_mem _ hx))
      (fun x hx => hnp x (List.mem_cons_of_mem _ hx))
    have hlnl := hnl l (List.mem_cons_self _ _)
    have hlnp := hnp l (List.mem_cons_self _ _)
    have e : linesJoin (l :: ls) = l ++ '\n' :: linesJoin ls := by
      have e0 : linesJoin (l :: ls) = l ++ ['\n'] ++ linesJoin ls := rfl
      rw [e0, List.append_assoc]
      rfl
    constructor
    · rw [e, containsStr_nl_skip _ _ _ hlnl, containsStr_cons_eq]
      have hp : ('\n' :: w).isPrefixOf ('\n' :: linesJoin ls) =
          w.isPrefixOf (linesJoin ls) := by
        have e2 : ('\n' :: w).isPrefixOf ('\n' :: linesJoin ls) =
            (('\n' : Char) == '\n' && w.isPrefixOf (linesJoin ls)) := rfl
        rw [e2]; simp
      rw [hp, ihr.1, ihr.2]
      rfl
    · rw [e]
      cases hq : w.isPrefixOf (l ++ '\n' :: linesJoin ls) with
      | false => rfl
      | true =>
        exfalso
        have h2 := isPrefixOf_line_bound w l (linesJoin ls) hwnl hlnl hq
        simp [hlnp] at h2

/- ### Supporting lemmas: header regex scan, marker scan, hunk collection -/

theorem isPrefixOf_cons_ne (m0 : Char) (m' : Str) (c : Char) (r : Str)
    (h : m0 ≠ c) : (m0 :: m').isPrefixOf (c :: r) = false := by
  have e : (m0 :: m').isPrefixOf (c :: r) = ((m0 == c) && m'.isPrefixOf r) :=
    rfl
  rw [e, beq_eq_false_iff_ne.mpr h]
  simp

theorem gitABScan_cons (a : Char) (rest : Str) :
    PatchAnalyzer.gitABScan (a :: rest) =
      (if " b/".data.isPrefixOf (a :: rest) then
        some ([], ((a :: rest).drop 3).takeWhile (fun c => c != '\n'))
      else if a == '\n' then none
      else (PatchAnalyzer.gitABScan rest).map (fun p => (a :: p.1, p.2))) :=
  rfl

theorem sep_not_prefix_mid (c : Char) (F' G : Str)
    (hb : containsStr " b/".data (c :: F') = false) :
    " b/".data.isPrefixOf (c :: (F' ++ " b/".data ++ G)) = false := by
  cases F' with
  | nil =>
    have e : " b/".data.isPrefixOf (c :: ([] ++ " b/".data ++ G)) =
        ((' ' == c) && false) := rfl
    rw [e, Bool.and_false]
  | cons d F'' =>
    cases F'' with
    | nil =>
      have e : " b/".data.isPrefixOf (c :: ([d] ++ " b/".data ++ G)) =
          ((' ' == c) && (('b' == d) && false)) := rfl
      rw [e, Bool.and_false, Bool.and_false]
    | cons d2 F3 =>
      cases hp : " b/".data.isPrefixOf (c :: ((d :: d2 :: F3) ++
          " b/".data ++ G)) with
      | false => rfl
      | true =>
        exfalso
        have e : " b/".data.isPrefixOf (c :: ((d :: d2 :: F3) ++
            " b/".data ++ G)) =
            ((' ' == c) && (('b' == d) && (('/' == d2) &&
              [].isPrefixOf (F3 ++ " b/".data ++ G)))) := rfl
        rw [e] at hp
        simp only [Bool.and_eq_true, beq_iff_eq] at hp
        obtain ⟨rfl, rfl, rfl, -⟩ := hp
        rw [containsStr_cons_eq] at hb
        have hpre : " b/".data.isPrefixOf (' ' :: 'b' :: '/' :: F3) = true := by
          have e2 : " b/".data.isPrefixOf (' ' :: 'b' :: '/' :: F3) =
              [].isPrefixOf F3 := rfl
          rw [e2, List.isPrefixOf_iff_prefix]
          exact List.nil_prefix
        rw [hpre] at hb
        simp at hb

theorem gitABScan_exact (F G : Str) (hb : containsStr " b/".data F = false)
    (hnl : '\n' ∉ F) :
    PatchAnalyzer.gitABScan (F ++ " b/".data ++ G) =
      some (F, G.takeWhile (fun c => c != '\n')) := by
  induction F with
  | nil =>
    have e : ([] : Str) ++ " b/".data ++ G = ' ' :: 'b' :: '/' :: G := rfl
    rw [e, gitABScan_cons, if_pos ?hc]
    case hc =>
      have e2 : " b/".data.isPrefixOf (' ' :: 'b' :: '/' :: G) =
          [].isPrefixOf G := rfl
      rw [e2, List.isPrefixOf_iff_prefix]
      exact List.nil_prefix
    rfl
  | cons c F' ih =>
    rw [List.mem_cons, not_or] at hnl
    have e : (c :: F') ++ " b/".data ++ G = c :: (F' ++ " b/".data ++ G) := by
      simp
    rw [e, gitABScan_cons, if_neg (by rw [sep_not_prefix_mid c F' G hb]; simp)]
    rw [if_neg (by rw [beq_eq_false_iff_ne.mpr (fun hh => hnl.1 hh.symm)]; simp)]
    rw [ih (by rw [containsStr_cons_eq, Bool.or_eq_false_iff] at hb; exact hb.2)
      hnl.2]
    rfl

theorem hunkLineOk_head (l : Str) (h : PatchAnalyzer.hunkLineOk l = true) :
    l = [] ∨ ∃ c r, l = c :: r ∧
      (c = '@' ∨ c = '+' ∨ c = '-' ∨ c = ' ' ∨ c = '\\') := by
  cases l with
  | nil => exact Or.inl rfl
  | cons a r =>
    right
    refine ⟨a, r, rfl, ?_⟩
    unfold PatchAnalyzer.hunkLineOk at h
    simp only [Bool.or_eq_true] at h
    rcases h with ((h | h) | h) | h
    · obtain ⟨t, ht⟩ := List.isPrefixOf_iff_prefix.mp h
      injection ht with h1 h2
      exact Or.inl h1.symm
    · simp only [List.head?_cons, Option.any_some, Bool.or_eq_true,
        beq_iff_eq] at h
      rcases h with (h | h) | h
      · exact Or.inr (Or.inl h)
      · exact Or.inr (Or.inr (Or.inl h))
      · exact Or.inr (Or.inr (Or.inr (Or.inl h)))
    · simp at h
    · obtain ⟨t, ht⟩ := List.isPrefixOf_iff_prefix.mp h
      injection ht with h1 h2
      exact Or.inr (Or.inr (Or.inr (Or.inr h1.symm)))

theorem hunk_line_marker_free (l : Str) (h : PatchAnalyzer.hunkLineOk l = true) :
    "new file mode".data.isPrefixOf l = false ∧
    "deleted file mode".data.isPrefixOf l = false ∧
    "rename from".data.isPrefixOf l = false ∧
    "diff --git".data.isPrefixOf l = false := by
  rcases hunkLineOk_head l h with rfl | ⟨c, r, rfl, hc⟩
  · exact ⟨rfl, rfl, rfl, rfl⟩
  · refine ⟨?_, ?_, ?_, ?_⟩ <;>
      (apply isPrefixOf_cons_ne; rcases hc with rfl | rfl | rfl | rfl | rfl) <;>
      decide

theorem statusScan_cons (o l : Str) (ls : List Str) :
    PatchAnalyzer.statusScan o (l :: ls) =
      (if "new file mode".data.isPrefixOf l then ("added".data, none)
       else if "deleted file mode".data.isPrefixOf l then ("removed".data, none)
       else if "rename from".data.isPrefixOf l then
         ("renamed".data, some o)
       else PatchAnalyzer.statusScan o ls) := rfl

theorem statusScan_no_marker (o : Str) (L : List Str)
    (h : ∀ l ∈ L, PatchAnalyzer.hunkLineOk l = true) :
    PatchAnalyzer.statusScan o L = ("modified".data, none) := by
  induction L with
  | nil => rfl
  | cons l ls ih =>
    obtain ⟨h1, h2, h3, -⟩ := hunk_line_marker_free l (h l (List.mem_cons_self _ _))
    rw [statusScan_cons, if_neg (by rw [h1]; simp),
      if_neg (by rw [h2]; simp), if_neg (by rw [h3]; simp)]
    exact ih (fun x hx => h x (List.mem_cons_of_mem _ hx))

theorem collect_cons (l : Str) (ls : List Str) (b : Bool) :
    PatchAnalyzer.collectPatchLines (l :: ls) b =
      (if "@@".data.isPrefixOf l then
        l :: PatchAnalyzer.collectPatchLines ls true
      else if b && (l.head?.any (fun c => c == '+' || c == '-' || c == ' ') ||
          l.isEmpty) then
        l :: PatchAnalyzer.collectPatchLines ls b
      else if "\\".data.isPrefixOf l then
        l :: PatchAnalyzer.collectPatchLines ls b
      else PatchAnalyzer.collectPatchLines ls b) := rfl

theorem collect_all (L : List Str)
    (h : ∀ l ∈ L, PatchAnalyzer.hunkLineOk l = true) :
    PatchAnalyzer.collectPatchLines L true = L := by
  induction L with
  | nil => rfl
  | cons l ls ih =>
    have hl := h l (List.mem_cons_self _ _)
    have ihr := ih (fun x hx => h x (List.mem_cons_of_mem _ hx))
    rw [collect_cons]
    by_cases h1 : "@@".data.isPrefixOf l = true
    · rw [if_pos h1, ihr]
    · rw [if_neg h1]
      by_cases h2 : (l.head?.any (fun c => c == '+' || c == '-' || c == ' ') ||
          l.isEmpty) = true
      · rw [if_pos (by rw [h2]; rfl), ihr]
      · unfold PatchAnalyzer.hunkLineOk at hl
        simp only [Bool.or_eq_true] at hl
        have h3 : "\\".data.isPrefixOf l = true := by
          rcases hl with ((hl | hl) | hl) | hl
          · exact absurd hl h1
          · exact absurd (by rw [hl]; simp : (l.head?.any
              (fun c => c == '+' || c == '-' || c == ' ') || l.isEmpty) = true) h2
          · exact absurd (by rw [hl]; simp : (l.head?.any
              (fun c => c == '+' || c == '-' || c == ' ') || l.isEmpty) = true) h2
          · exact hl
        rw [if_neg (by simp [h2]), if_pos h3, ihr]

/- ### Supporting lemmas: parsing a rebuilt single-file diff -/

theorem nil_isPrefixOf_true (l : Str) : ([] : Str).isPrefixOf l = true := by
  rw [List.isPrefixOf_iff_prefix]
  exact List.nil_prefix

theorem matchGitAB_headerLine (X Y : Str)
    (hXb : containsStr " b/".data X = false) (hXnl : '\n' ∉ X)
    (hYnl : '\n' ∉ Y) :
    PatchAnalyzer.matchGitAB (headerLine X Y) = some (X, Y) := by
  unfold PatchAnalyzer.matchGitAB headerLine
  rw [if_pos ?hp]
  case hp =>
    have e : "diff --git a/".data.isPrefixOf
        ("diff --git a/".data ++ (X ++ (" b/".data ++ Y))) =
        ([] : Str).isPrefixOf (X ++ (" b/".data ++ Y)) := rfl
    rw [e, nil_isPrefixOf_true]
  have e2 : ("diff --git a/".data ++ (X ++ (" b/".data ++ Y))).drop 13 =
      X ++ (" b/".data ++ Y) := rfl
  rw [e2, ← List.append_assoc, gitABScan_exact X Y hXb hXnl,
    takeWhile_ne_nl Y hYnl]

theorem parse_single_lines (d X Y : Str) (TL : List Str)
    (st fn : Str) (old : Option Str)
    (hlines : (pyStrip d).splitOn '\n' = headerLine X Y :: TL)
    (hXnl : '\n' ∉ X) (hXb : containsStr " b/".data X = false)
    (hYnl : '\n' ∉ Y)
    (hscan : PatchAnalyzer.statusScan X ((headerLine X Y :: TL).take 10) =
      (st, old))
    (hfn : fn = (if st = "removed".data then X else Y))
    (hfne : fn ≠ []) :
    PatchAnalyzer.parse_single_file_diff d =
      some { filename := fn, status := st,
             patch_content := ['\n'].intercalate
               (PatchAnalyzer.collectPatchLines (headerLine X Y :: TL) false),
             is_test_file := PatchAnalyzer.is_test_file fn,
             old_filename := old } := by
  unfold PatchAnalyzer.parse_single_file_diff
  rw [hlines]
  have hext : PatchAnalyzer.extract_file_info (headerLine X Y)
      (headerLine X Y :: TL) = (some fn, st, old) := by
    unfold PatchAnalyzer.extract_file_info
    rw [matchGitAB_headerLine X Y hXb hXnl hYnl]
    simp only [hscan, hfn]
  simp only [hext, isEmpty_false_of_ne_nil fn hfne, Bool.false_eq_true,
    if_false]

theorem linesJoin_cons_eq (l : Str) (ls : List Str) :
    linesJoin (l :: ls) = l ++ '\n' :: linesJoin ls := by
  have e0 : linesJoin (l :: ls) = l ++ ['\n'] ++ linesJoin ls := rfl
  rw [e0, List.append_assoc]
  rfl

theorem intercalate_linesJoin_split (A B : List Str) (hB : B ≠ []) :
    List.intercalate ['\n'] (A ++ B) =
      linesJoin A ++ List.intercalate ['\n'] B := by
  induction A with
  | nil => simp [linesJoin]
  | cons a A' ih =>
    rw [List.cons_append,
      intercalate_nl_cons a (A' ++ B)
        (by cases B with
          | nil => exact absurd rfl hB
          | cons b t => simp),
      ih, linesJoin_cons_eq]
    simp

theorem linesJoin_append_last (A : List Str) (z : Str) :
    List.intercalate ['\n'] (A ++ [z]) = linesJoin A ++ z := by
  rw [intercalate_linesJoin_split A [z] (by simp)]
  have e : List.intercalate ['\n'] [z] = z := by
    unfold List.intercalate
    simp
  rw [e]

theorem lstrip_eq_self_of_head (s : Str)
    (h : s.head?.all (fun c => !isPySpace c) = true) : lstrip s = s := by
  cases s with
  | nil => rfl
  | cons a t =>
    simp only [List.head?_cons, Option.all_some, Bool.not_eq_true'] at h
    exact lstrip_cons_nospace a t h

theorem parse_rebuilt_core (X Y : Str) (HD : List Str) (pc st fn : Str)
    (old : Option Str)
    (hXnl : '\n' ∉ X) (hXb : containsStr " b/".data X = false)
    (hYnl : '\n' ∉ Y)
    (hfn : fn = (if st = "removed".data then X else Y))
    (hfne : fn ≠ [])
    (hHDnl : ∀ l ∈ HD, '\n' ∉ l)
    (hHDnp : ∀ l ∈ HD, "diff --git".data.isPrefixOf l = false)
    (hlastHD : ∃ z, HD.getLast? = some z ∧ z ≠ [] ∧
      z.getLast?.all (fun c => !isPySpace c) = true)
    (hscan : ∀ R, (∀ l ∈ R, PatchAnalyzer.hunkLineOk l = true) →
      PatchAnalyzer.statusScan X ((headerLine X Y :: (HD ++ R)).take 10) =
        (st, old))
    (hcol : ∀ R, PatchAnalyzer.collectPatchLines
        (headerLine X Y :: (HD ++ R)) false =
      PatchAnalyzer.collectPatchLines R false)
    (hpc : PatchAnalyzer.patchContentOk pc) :
    PatchAnalyzer.parse_unified_diff
        (linesJoin (headerLine X Y :: (HD ++ pc.splitOn '\n'))) =
      [{ filename := fn, status := st, patch_content := pc,
         is_test_file := PatchAnalyzer.is_test_file fn,
         old_filename := old }] := by
  have hL1nl : '\n' ∉ headerLine X Y := by
    unfold headerLine
    intro hmem
    rcases List.mem_append.mp hmem with h | h
    · exact absurd h (by decide)
    · rcases List.mem_append.mp h with h | h
      · exact hXnl h
      · rcases List.mem_append.mp h with h | h
        · exact absurd h (by decide)
        · exact hYnl h
  have hpcLok : ∀ l ∈ pc.splitOn '\n', PatchAnalyzer.hunkLineOk l = true := by
    rcases hpc with hpcE | ⟨h1, h2, h3⟩
    · subst hpcE
      intro l hl
      rw [List.splitOn_nil, List.mem_singleton] at hl
      subst hl
      decide
    · exact h2
  have hpcLnl : ∀ l ∈ pc.splitOn '\n', '\n' ∉ l :=
    fun l hl => mem_splitOn_nl pc l hl
  have htlnl : ∀ l ∈ HD ++ pc.splitOn '\n', '\n' ∉ l := by
    intro l hl
    rcases List.mem_append.mp hl with h | h
    · exact hHDnl l h
    · exact hpcLnl l h
  have htlnp : ∀ l ∈ HD ++ pc.splitOn '\n',
      "diff --git".data.isPrefixOf l = false := by
    intro l hl
    rcases List.mem_append.mp hl with h | h
    · exact hHDnp l h
    · exact (hunk_line_marker_free l (hpcLok l h)).2.2.2
  have hnocc : containsStr "\ndiff --git".data
      (linesJoin (headerLine X Y :: (HD ++ pc.splitOn '\n'))) = false := by
    have e : "\ndiff --git".data = '\n' :: "diff --git".data := rfl
    rw [e, linesJoin_cons_eq, containsStr_nl_skip _ _ _ hL1nl,
      containsStr_cons_eq]
    have hrest := linesJoin_no_occurrence "diff --git".data
      (HD ++ pc.splitOn '\n') (by decide) (by decide) htlnl htlnp
    have e3 : ('\n' :: "diff --git".data).isPrefixOf
        ('\n' :: linesJoin (HD ++ pc.splitOn '\n')) =
        (('\n' : Char) == '\n' &&
          "diff --git".data.isPrefixOf (linesJoin (HD ++ pc.splitOn '\n'))) :=
      rfl
    rw [e3, hrest.1, hrest.2]
    simp
  unfold PatchAnalyzer.parse_unified_diff
  rw [pySplit_no_occur _ _ (by decide) hnocc]
  simp only [List.map_nil]
  by_cases hpce : pc = []
  · subst hpce
    obtain ⟨z, hz, hzne, hzlast⟩ := hlastHD
    have hHDne : HD ≠ [] := by
      intro hc; rw [hc] at hz; exact absurd hz (by simp)
    have e4 : List.intercalate ['\n'] (headerLine X Y :: HD) =
        linesJoin (headerLine X Y :: HD.dropLast) ++ z := by
      have e6 : HD.dropLast ++ [HD.getLast hHDne] = HD :=
        List.dropLast_append_getLast hHDne
      have e7 : HD.getLast hHDne = z := by
        have e8 := List.getLast?_eq_getLast HD hHDne
        rw [e8] at hz
        exact (Option.some.injEq _ _).mp hz
      rw [e7] at e6
      have e5 : headerLine X Y :: HD =
          (headerLine X Y :: HD.dropLast) ++ [z] := by
        rw [← e6]
        simp
      rw [e5, linesJoin_append_last]
    have hstrip : pyStrip
        (linesJoin (headerLine X Y :: (HD ++ ([] : Str).splitOn '\n'))) =
        List.intercalate ['\n'] (headerLine X Y :: HD) := by
      have e1 : linesJoin (headerLine X Y :: (HD ++ ([] : Str).splitOn '\n')) =
          (List.intercalate ['\n'] (headerLine X Y :: HD) ++ ['\n']) ++
            ['\n'] := by
        rw [List.splitOn_nil, ← List.cons_append, linesJoin_append,
          linesJoin_eq_intercalate _ (by simp)]
        have e2 : linesJoin [([] : Str)] = ['\n'] := rfl
        rw [e2]
      rw [e1]
      unfold pyStrip
      rw [lstrip_eq_self_of_head _ (by rw [e4]; rfl)]
      rw [rstrip_append_space _ _ (by decide),
        rstrip_append_space _ _ (by decide)]
      rw [e4, rstrip_eq_self_of_last _ (by
        rw [List.getLast?_append_of_ne_nil _ hzne]
        exact hzlast)]
    have hlines : (pyStrip (linesJoin (headerLine X Y ::
        (HD ++ ([] : Str).splitOn '\n')))).splitOn '\n' =
        headerLine X Y :: HD := by
      rw [hstrip]
      exact List.splitOn_intercalate _ '\n'
        (by
          intro l hl
          rcases List.mem_cons.mp hl with h | h
          · subst h; exact hL1nl
          · exact hHDnl l h)
        (by simp)
    have hone : PatchAnalyzer.parse_single_file_diff
        (linesJoin (headerLine X Y :: (HD ++ ([] : Str).splitOn '\n'))) =
        some { filename := fn, status := st, patch_content := [],
               is_test_file := PatchAnalyzer.is_test_file fn,
               old_filename := old } := by
      have hs := hscan [] (by intro l hl; exact absurd hl (List.not_mem_nil l))
      rw [List.append_nil] at hs
      have hc := hcol []
      rw [List.append_nil] at hc
      rw [parse_single_lines _ X Y HD st fn old hlines hXnl hXb hYnl hs
        hfn hfne]
      rw [hc]
      rfl
    rw [List.filterMap_cons]
    have hne : (pyStrip (linesJoin (headerLine X Y ::
        (HD ++ ([] : Str).splitOn '\n')))).isEmpty = false := by
      rw [hstrip, e4]
      rfl
    rw [hne]
    simp only [Bool.false_eq_true, if_false, hone, List.filterMap_nil]
  · have hpclast : pc.getLast?.all (fun c => !isPySpace c) = true := by
      rcases hpc with hpcE | ⟨h1, h2, h3⟩
      · exact absurd hpcE hpce
      · exact h3
    have hstrip : pyStrip
        (linesJoin (headerLine X Y :: (HD ++ pc.splitOn '\n'))) =
        List.intercalate ['\n']
          (headerLine X Y :: (HD ++ pc.splitOn '\n')) := by
      have e1 : linesJoin (headerLine X Y :: (HD ++ pc.splitOn '\n')) =
          (linesJoin (headerLine X Y :: HD) ++ pc) ++ ['\n'] := by
        rw [← List.cons_append, linesJoin_append, linesJoin_splitOn]
        simp
      rw [e1]
      unfold pyStrip
      rw [lstrip_eq_self_of_head _ (by rw [linesJoin_cons_eq]; rfl)]
      rw [rstrip_append_space _ _ (by decide)]
      rw [rstrip_eq_self_of_last _ (by
        rw [List.getLast?_append_of_ne_nil _ hpce]
        exact hpclast)]
      rw [← List.cons_append, intercalate_linesJoin_split _ _
        (splitOn_ne_nil pc '\n'), List.intercalate_splitOn]
    have hlines : (pyStrip (linesJoin (headerLine X Y ::
        (HD ++ pc.splitOn '\n')))).splitOn '\n' =
        headerLine X Y :: (HD ++ pc.splitOn '\n') := by
      rw [hstrip]
      exact List.splitOn_intercalate _ '\n'
        (by
          intro l hl
          rcases List.mem_cons.mp hl with h | h
          · subst h; exact hL1nl
          · exact htlnl l h)
        (by simp)
    have hcolv : PatchAnalyzer.collectPatchLines
        (headerLine X Y :: (HD ++ pc.splitOn '\n')) false =
        pc.splitOn '\n' := by
      rw [hcol]
      rcases hpc with hpcE | ⟨h1, h2, h3⟩
      · exact absurd hpcE hpce
      · cases hq : pc.splitOn '\n' with
        | nil => exact absurd hq (splitOn_ne_nil pc '\n')
        | cons q0 qr =>
          rw [hq] at h1
          simp only [List.headD_cons] at h1
          rw [collect_cons, if_pos h1, collect_all qr (by
            intro l hl
            exact h2 l (by rw [hq]; exact List.mem_cons_of_mem _ hl))]
    have hone : PatchAnalyzer.parse_single_file_diff
        (linesJoin (headerLine X Y :: (HD ++ pc.splitOn '\n'))) =
        some { filename := fn, status := st, patch_content := pc,
               is_test_file := PatchAnalyzer.is_test_file fn,
               old_filename := old } := by
      rw [parse_single_lines _ X Y (HD ++ pc.splitOn '\n') st fn old hlines
        hXnl hXb hYnl (hscan _ hpcLok) hfn hfne]
      rw [hcolv, List.intercalate_splitOn]
    rw [List.filterMap_cons]
    have hne : (pyStrip (linesJoin (headerLine X Y ::
        (HD ++ pc.splitOn '\n')))).isEmpty = false := by
      rw [hstrip, ← List.cons_append, intercalate_linesJoin_split _ _
        (splitOn_ne_nil pc '\n')]
      rfl
    rw [hne]
    simp only [Bool.false_eq_true, if_false, hone, List.filterMap_nil]

/- ### C9: rebuild-then-parse round trip -/

/-- Counterexample for C9 as stated: a `PatchInfo` whose `patch_content` is
not made of hunk lines (here the plain text `x`) does not round-trip — the
hunk collector drops the line, so the reparsed record's `patch_content` is
empty rather than `x`. -/
theorem C9_roundtrip_counterexample :
    PatchAnalyzer.parse_unified_diff (PatchAnalyzer.build_complete_diff
      { filename := "f".data, status := "modified".data,
        patch_content := "x".data, is_test_file := false,
        old_filename := none }) =
      [{ filename := "f".data, status := "modified".data,
         patch_content := [], is_test_file := false,
         old_filename := none }] := by decide

/-- C9 (amended): rebuild-then-parse is the identity on
{filename, status, patch_content, old_filename} for every `PatchInfo`
whose status is one of the four legal values, whose file names are
nonempty, newline-free, free of the substring `" b/"` (the old name, for
renames) and not ending in whitespace, whose `old_filename` is present
exactly for renames, and whose `patch_content` is a well-formed hunk body
(empty, or `@@`-led hunk lines not ending in whitespace). -/
theorem C9_parse_rebuild_roundtrip (p : PatchAnalyzer.PatchInfo)
    (hst : p.status = "added".data ∨ p.status = "modified".data ∨
      p.status = "removed".data ∨ p.status = "renamed".data)
    (hfne : p.filename ≠ []) (hfnl : '\n' ∉ p.filename)
    (hfl : p.filename.getLast?.all (fun c => !isPySpace c) = true)
    (hfb : p.status ≠ "renamed".data →
      containsStr " b/".data p.filename = false)
    (hold : p.status = "renamed".data → ∃ o, p.old_filename = some o ∧
      o ≠ [] ∧ '\n' ∉ o ∧ containsStr " b/".data o = false)
    (holdn : p.status ≠ "renamed".data → p.old_filename = none)
    (hpc : PatchAnalyzer.patchContentOk p.patch_content) :
    ∃ q, PatchAnalyzer.parse_unified_diff
        (PatchAnalyzer.build_complete_diff p) = [q] ∧
      q.filename = p.filename ∧ q.status = p.status ∧
      q.patch_content = p.patch_content ∧
      q.old_filename = p.old_filename := by
  have hfz : ("+++ b/".data ++ p.filename).getLast?.all
      (fun c => !isPySpace c) = true := by
    rw [List.getLast?_append_of_ne_nil _ hfne]
    exact hfl
  have hfzne : ("+++ b/".data ++ p.filename) ≠ [] := by
    intro hc
    have := congrArg List.length hc
    simp at this
  rcases hst with hs | hs | hs | hs
  · -- added
    have hON : p.old_filename = none := holdn (by rw [hs]; decide)
    have hFb := hfb (by rw [hs]; decide)
    have hbuild : PatchAnalyzer.build_complete_diff p =
        linesJoin (headerLine p.filename p.filename ::
          (["new file mode 100644".data, "index 0000000..1111111".data,
            "--- /dev/null".data, "+++ b/".data ++ p.filename] ++
            p.patch_content.splitOn '\n')) := by
      unfold PatchAnalyzer.build_complete_diff
      rw [hs, if_pos rfl]
      simp [headerLine, linesJoin_cons_eq, linesJoin_splitOn,
        List.append_assoc]
    refine ⟨{ filename := p.filename, status := "added".data, patch_content := p.patch_content, is_test_file := PatchAnalyzer.is_test_file p.filename, old_filename := none }, ?_, rfl, hs.symm, rfl, hON.symm⟩
    rw [hbuild]
    exact parse_rebuilt_core p.filename p.filename
      ["new file mode 100644".data, "index 0000000..1111111".data,
        "--- /dev/null".data, "+++ b/".data ++ p.filename]
      p.patch_content "added".data p.filename none hfnl hFb hfnl
      (by rw [if_neg (by decide)]) hfne
      (by
        intro l hl
        rcases List.mem_cons.mp hl with rfl | hl
        · decide
        rcases List.mem_cons.mp hl with rfl | hl
        · decide
        rcases List.mem_cons.mp hl with rfl | hl
        · decide
        rcases List.mem_cons.mp hl with rfl | hl
        · intro hmem
          rcases List.mem_append.mp hmem with h | h
          · exact absurd h (by decide)
          · exact hfnl h
        · exact absurd hl (List.not_mem_nil l))
      (by
        intro l hl
        rcases List.mem_cons.mp hl with rfl | hl
        · decide
        rcases List.mem_cons.mp hl with rfl | hl
        · decide
        rcases List.mem_cons.mp hl with rfl | hl
        · decide
        rcases List.mem_cons.mp hl with rfl | hl
        · exact isPrefixOf_cons_ne 'd' _ '+' _ (by decide)
        · exact absurd hl (List.not_mem_nil l))
      ⟨"+++ b/".data ++ p.filename, rfl, hfzne, hfz⟩
      (fun R _ => rfl)
      (fun R => rfl)
      hpc
  · -- modified
    have hON : p.old_filename = none := holdn (by rw [hs]; decide)
    have hFb := hfb (by rw [hs]; decide)
    have hbuild : PatchAnalyzer.build_complete_diff p =
        linesJoin (headerLine p.filename p.filename ::
          (["index 1111111..2222222 100644".data,
            "--- a/".data ++ p.filename,
            "+++ b/".data ++ p.filename] ++
            p.patch_content.splitOn '\n')) := by
      unfold PatchAnalyzer.build_complete_diff
      rw [hs, if_neg (by decide), if_neg (by decide), if_neg (by decide)]
      simp [headerLine, linesJoin_cons_eq, linesJoin_splitOn,
        List.append_assoc]
    refine ⟨{ filename := p.filename, status := "modified".data, patch_content := p.patch_content, is_test_file := PatchAnalyzer.is_test_file p.filename, old_filename := none }, ?_, rfl, hs.symm, rfl, hON.symm⟩
    rw [hbuild]
    exact parse_rebuilt_core p.filename p.filename
      ["index 1111111..2222222 100644".data,
        "--- a/".data ++ p.filename, "+++ b/".data ++ p.filename]
      p.patch_content "modified".data p.filename none hfnl hFb hfnl
      (by rw [if_neg (by decide)]) hfne
      (by
        intro l hl
        rcases List.mem_cons.mp hl with rfl | hl
        · decide
        rcases List.mem_cons.mp hl with rfl | hl
        · intro hmem
          rcases List.mem_append.mp hmem with h | h
          · exact absurd h (by decide)
          · exact hfnl h
        rcases List.mem_cons.mp hl with rfl | hl
        · intro hmem
          rcases List.mem_append.mp hmem with h | h
          · exact absurd h (by decide)
          · exact hfnl h
        · exact absurd hl (List.not_mem_nil l))
      (by
        intro l hl
        rcases List.mem_cons.mp hl with rfl | hl
        · decide
        rcases List.mem_cons.mp hl with rfl | hl
        · exact isPrefixOf_cons_ne 'd' _ '-' _ (by decide)
        rcases List.mem_cons.mp hl with rfl | hl
        · exact isPrefixOf_cons_ne 'd' _ '+' _ (by decide)
        · exact absurd hl (List.not_mem_nil l))
      ⟨"+++ b/".data ++ p.filename, rfl, hfzne, hfz⟩
      (fun R hR => by
        have e : PatchAnalyzer.statusScan p.filename
            ((headerLine p.filename p.filename ::
              (["index 1111111..2222222 100644".data,
                "--- a/".data ++ p.filename,
                "+++ b/".data ++ p.filename] ++ R)).take 10) =
            PatchAnalyzer.statusScan p.filename (R.take 6) := rfl
        rw [e]
        exact statusScan_no_marker _ _
          (fun l hl => hR l (List.mem_of_mem_take hl)))
      (fun R => rfl)
      hpc
  · -- removed
    have hON : p.old_filename = none := holdn (by rw [hs]; decide)
    have hFb := hfb (by rw [hs]; decide)
    have hbuild : PatchAnalyzer.build_complete_diff p =
        linesJoin (headerLine p.filename p.filename ::
          (["deleted file mode 100644".data, "index 1111111..0000000".data,
            "--- a/".data ++ p.filename, "+++ /dev/null".data] ++
            p.patch_content.splitOn '\n')) := by
      unfold PatchAnalyzer.build_complete_diff
      rw [hs, if_neg (by decide), if_pos rfl]
      simp [headerLine, linesJoin_cons_eq, linesJoin_splitOn,
        List.append_assoc]
    refine ⟨{ filename := p.filename, status := "removed".data, patch_content := p.patch_content, is_test_file := PatchAnalyzer.is_test_file p.filename, old_filename := none }, ?_, rfl, hs.symm, rfl, hON.symm⟩
    rw [hbuild]
    exact parse_rebuilt_core p.filename p.filename
      ["deleted file mode 100644".data, "index 1111111..0000000".data,
        "--- a/".data ++ p.filename, "+++ /dev/null".data]
      p.patch_content "removed".data p.filename none hfnl hFb hfnl
      (by rw [if_pos rfl]) hfne
      (by
        intro l hl
        rcases List.mem_cons.mp hl with rfl | hl
        · decide
        rcases List.mem_cons.mp hl with rfl | hl
        · decide
        rcases List.mem_cons.mp hl with rfl | hl
        · intro hmem
          rcases List.mem_append.mp hmem with h | h
          · exact absurd h (by decide)
          · exact hfnl h
        rcases List.mem_cons.mp hl with rfl | hl
        · decide
        · exact absurd hl (List.not_mem_nil l))
      (by
        intro l hl
        rcases List.mem_cons.mp hl with rfl | hl
        · decide
        rcases List.mem_cons.mp hl with rfl | hl
        · decide
        rcases List.mem_cons.mp hl with rfl | hl
        · exact isPrefixOf_cons_ne 'd' _ '-' _ (by decide)
        rcases List.mem_cons.mp hl with rfl | hl
        · decide
        · exact absurd hl (List.not_mem_nil l))
      ⟨"+++ /dev/null".data, rfl, by decide, by decide⟩
      (fun R _ => rfl)
      (fun R => rfl)
      hpc
  · -- renamed
    obtain ⟨o, hOeq, hone, honl, hob⟩ := hold hs
    have hrz : ("rename to ".data ++ p.filename).getLast?.all
        (fun c => !isPySpace c) = true := by
      rw [List.getLast?_append_of_ne_nil _ hfne]
      exact hfl
    have hrzne : ("rename to ".data ++ p.filename) ≠ [] := by
      intro hc
      have := congrArg List.length hc
      simp at this
    have hbuild : PatchAnalyzer.build_complete_diff p =
        linesJoin (headerLine o p.filename ::
          (["similarity index 100%".data,
            "rename from ".data ++ o,
            "rename to ".data ++ p.filename] ++
            p.patch_content.splitOn '\n')) := by
      unfold PatchAnalyzer.build_complete_diff
      rw [hs, if_neg (by decide), if_neg (by decide), if_pos rfl, hOeq]
      have ho : pyOrStr (some o) p.filename = o := by
        have e : pyOrStr (some o) p.filename =
            (if o.isEmpty then p.filename else o) := rfl
        rw [e, isEmpty_false_of_ne_nil o hone]
        simp
      rw [ho]
      simp [headerLine, linesJoin_cons_eq, linesJoin_splitOn,
        List.append_assoc]
    refine ⟨{ filename := p.filename, status := "renamed".data, patch_content := p.patch_content, is_test_file := PatchAnalyzer.is_test_file p.filename, old_filename := some o }, ?_, rfl, hs.symm, rfl, hOeq.symm⟩
    rw [hbuild]
    exact parse_rebuilt_core o p.filename
      ["similarity index 100%".data, "rename from ".data ++ o,
        "rename to ".data ++ p.filename]
      p.patch_content "renamed".data p.filename (some o) honl hob hfnl
      (by rw [if_neg (by decide)]) hfne
      (by
        intro l hl
        rcases List.mem_cons.mp hl with rfl | hl
        · decide
        rcases List.mem_cons.mp hl with rfl | hl
        · intro hmem
          rcases List.mem_append.mp hmem with h | h
          · exact absurd h (by decide)
          · exact honl h
        rcases List.mem_cons.mp hl with rfl | hl
        · intro hmem
          rcases List.mem_append.mp hmem with h | h
          · exact absurd h (by decide)
          · exact hfnl h
        · exact absurd hl (List.not_mem_nil l))
      (by
        intro l hl
        rcases List.mem_cons.mp hl with rfl | hl
        · decide
        rcases List.mem_cons.mp hl with rfl | hl
        · exact isPrefixOf_cons_ne 'd' _ 'r' _ (by decide)
        rcases List.mem_cons.mp hl with rfl | hl
        · exact isPrefixOf_cons_ne 'd' _ 'r' _ (by decide)
        · exact absurd hl (List.not_mem_nil l))
      ⟨"rename to ".data ++ p.filename, rfl, hrzne, hrz⟩
      (fun R _ => rfl)
      (fun R => rfl)
      hpc

/-- Witness for C9: the amended round trip, instantiated at a concrete
added-status `PatchInfo` with a one-hunk patch body. -/
theorem C9_parse_rebuild_roundtrip_witness :
    ∃ q, PatchAnalyzer.parse_unified_diff (PatchAnalyzer.build_complete_diff { filename := "a.py".data, status := "added".data, patch_content := "@@ -0,0 +1 @@\n+x".data, is_test_file := false, old_filename := none }) = [q] ∧
      q.filename = "a.py".data ∧ q.status = "added".data ∧
      q.patch_content = "@@ -0,0 +1 @@\n+x".data ∧ q.old_filename = none :=
  C9_parse_rebuild_roundtrip
    { filename := "a.py".data, status := "added".data, patch_content := "@@ -0,0 +1 @@\n+x".data, is_test_file := false, old_filename := none }
    (by decide) (by decide) (by decide) (by decide)
    (fun _ => by decide) (fun h => absurd h (by decide))
    (fun _ => rfl) (by decide)
